import Mathlib

/-!
XGetOpt: the `getopt` scan step of `src/XGetOpt.h`

A shallow embedding of the short-option parser together with theorems about
its contract.

Modelling conventions.

* A C string is the list of the characters stored in memory; reading at an
  index at or after the end of the list yields the terminator `NUL`.
* A `char *` is a `CharPtr`: the string pointed into and an offset.  `NULL`
  is `none`.
* The three pieces of retained state (`optind`, `optarg` and the function
  static `next`) are threaded explicitly through `State`.
* `optind` is a natural number: every increment in the source is guarded by
  `optind == 0` or `optind < argc`, so it cannot overflow, and a negative
  value written by the caller would index `argv` out of bounds.
* A `char` is a `Char` below 256, a byte.  Plain `char` is signed, so the value
  returned for an option letter (the conversion of `c` to `int` at line 185,
  `charInt`) is the code point of the letter for a byte below `0x80` and the
  sign-extended, negative value for a byte from `0x80` up; the byte `0xFF` is
  returned as `-1`.
* `getopt` is the composition of `enter` (lines 119-156) and `extract`
  (lines 158-185); `strchr` and `strcmp` are the C library functions, the
  comparison with `"--"` being the equality of the strings up to their
  terminators.
* `argc` is a parameter of its own, as in the source; every read of
  `argv[optind]` is guarded by `optind < argc`.
-/

namespace XGetOpt

/-- The string terminator. -/
def NUL : Char := Char.ofNat 0

/-- Return value for an unknown option or a missing argument: `'?'`. -/
def UNKNOWN : Int := 63

/-- Return value when the options are exhausted. -/
def EOO : Int := -1

/-- A `char *` into a string: the string and the offset of the character
pointed at. -/
structure CharPtr where
  base : List Char
  off : Nat
deriving DecidableEq, Repr

/-- The character `*p`. -/
def CharPtr.deref (p : CharPtr) : Char := p.base.getD p.off NUL

/-- The pointer `p + 1`. -/
def CharPtr.succ (p : CharPtr) : CharPtr := { base := p.base, off := p.off + 1 }

/-- The characters of a C string up to its terminator. -/
def cstr (s : List Char) : List Char := s.takeWhile (fun x => x != NUL)

/-- The C string a pointer denotes. -/
def CharPtr.str (p : CharPtr) : List Char := cstr (p.base.drop p.off)

/-- The scan of the C library function `strchr`, started at offset `k`:
the offset of the first character equal to `c`, the terminator counting as
a character of the string. -/
def strchrFrom : List Char → Nat → Char → Option Nat
  | [], k, c => if c = NUL then some k else none
  | x :: xs, k, c =>
    if x = c then some k else if x = NUL then none else strchrFrom xs (k + 1) c

/-- The C library call `strchr(s, c)`. -/
def strchr (s : List Char) (c : Char) : Option CharPtr :=
  (strchrFrom s 0 c).map (fun k => { base := s, off := k })

/-- The element `argv[i]`. -/
def argvAt (argv : List (List Char)) (i : Nat) : List Char := argv.getD i []

/-- The retained state: the globals `optind` and `optarg` and the function
static `next`. -/
structure State where
  optind : Nat
  optarg : Option CharPtr
  next : Option CharPtr
deriving DecidableEq, Repr

/-- The state before the first call. -/
def fresh : State := { optind := 0, optarg := none, next := none }

/-- Where control stands after lines 119-156. -/
inductive Entry where
  /-- The call has returned `-1` (line 139 or line 150) leaving this state. -/
  | finished (s : State) : Entry
  /-- Control is at line 158 with these values of `optind` and `next`
  (`optarg` is `NULL`). -/
  | cluster (optind : Nat) (next : CharPtr) : Entry
deriving DecidableEq, Repr

/-- The value of `optarg` set at lines 134-138 and 145-149. -/
def operand (argc : Nat) (argv : List (List Char)) (optind : Nat) : Option CharPtr :=
  if optind < argc then some { base := argvAt argv optind, off := 0 } else none

/-- Lines 127-156 of `getopt`: the body of the `if` of line 125, run when no
cluster is pending.  `next` is carried along for the state that is left. -/
def newElement (argc : Nat) (argv : List (List Char)) (optind : Nat)
    (next : Option CharPtr) : Entry :=
  -- 127-130
  let optind := if optind = 0 then optind + 1 else optind
  -- 132-140
  if optind ≥ argc ∨ (argvAt argv optind).getD 0 NUL ≠ '-'
      ∨ (argvAt argv optind).getD 1 NUL = NUL then
    .finished { optind := optind, optarg := operand argc argv optind, next := next }
  -- 142-151
  else if cstr (argvAt argv optind) = ['-', '-'] then
    .finished { optind := optind + 1, optarg := operand argc argv (optind + 1), next := next }
  -- 153-155
  else
    .cluster (optind + 1) { base := argvAt argv optind, off := 1 }

/-- Lines 119-156 of `getopt`: the reset check, the clearing of `optarg` and
the test of line 125. -/
def enter (argc : Nat) (argv : List (List Char)) (s : State) : Entry :=
  -- 119-122
  let next : Option CharPtr := if s.optind = 0 then none else s.next
  -- 125
  match next with
  | none => newElement argc argv s.optind next
  | some p =>
    if p.deref = NUL then newElement argc argv s.optind next
    else .cluster s.optind p

/-- The byte `0xFF`. -/
def BYTE_FF : Char := Char.ofNat 255

/-- The conversion of the `char c` to the `int` that `return c;` (line 185)
hands back, plain `char` being signed: a byte below `0x80` keeps its value, a
byte from `0x80` to `0xFF` is sign-extended to a negative number, so that
`0xFF` becomes `-1`.  A `Char` above `0xFF` is not a C character; it is given
its code point, which keeps the conversion one-to-one. -/
def charInt (c : Char) : Int :=
  if c.toNat < 128 then (c.toNat : Int)
  else if c.toNat < 256 then (c.toNat : Int) - 256
  else (c.toNat : Int)

/-- Lines 158-185 of `getopt`, entered with `optarg == NULL`. -/
def extract (argc : Nat) (argv : List (List Char)) (optstring : List Char)
    (optind : Nat) (next : CharPtr) : Int × State :=
  -- 158
  let c := next.deref
  let next := next.succ
  -- 159-164
  match strchr optstring c with
  | none => (UNKNOWN, { optind := optind, optarg := none, next := some next })
  | some cp =>
    if c = ':' then
      (UNKNOWN, { optind := optind, optarg := none, next := some next })
    -- 166-167
    else if cp.succ.deref = ':' then
      -- 169-173
      if next.deref ≠ NUL then
        (charInt c, { optind := optind, optarg := some next, next := none })
      -- 174-178
      else if optind < argc then
        (charInt c, { optind := optind + 1,
                      optarg := some { base := argvAt argv optind, off := 0 },
                      next := some next })
      -- 179-182
      else
        (UNKNOWN, { optind := optind, optarg := none, next := some next })
    -- 185
    else
      (charInt c, { optind := optind, optarg := none, next := some next })

/-- One call `getopt(argc, argv, optstring)` in state `s`: the value returned
and the state left behind. -/
def getopt (argc : Nat) (argv : List (List Char)) (optstring : List Char)
    (s : State) : Int × State :=
  match enter argc argv s with
  | .finished s' => (EOO, s')
  | .cluster optind next => extract argc argv optstring optind next

/-! ## Vocabulary of the contract -/

/-- The cluster character pending between calls, when there is one: `next`
is not `NULL`, does not stand at the terminator, and `optind` has not been
reset to `0`. -/
def pending (s : State) : Option CharPtr :=
  if s.optind = 0 then none
  else match s.next with
    | none => none
    | some p => if p.deref = NUL then none else some p

/-- The index of the element a call inspects when no cluster is pending:
`optind`, with `0` first advanced to `1`. -/
def index0 (s : State) : Nat := if s.optind = 0 then 1 else s.optind

/-- The value of `next` once the reset check of lines 119-122 has run. -/
def resetNext (s : State) : Option CharPtr := if s.optind = 0 then none else s.next

/-- An option element: it begins with `-`, has a character after it, and is
not the sentinel `--`. -/
def isCluster (a : List Char) : Bool :=
  a.getD 0 NUL == '-' && a.getD 1 NUL != NUL && cstr a != ['-', '-']

/-- The call `getopt` in state `s` extracts the character at `p`, and `m` is
the value of `optind` at that moment.  With `entered = false` the character is
the pending one and `m` is `optind`; with `entered = true` no cluster is
pending, `argv[i]` at `i = index0 s` is an option element, `p` points just
after its leading `-` and `m = i + 1`. -/
def Scans (argc : Nat) (argv : List (List Char)) (s : State) (entered : Bool)
    (m : Nat) (p : CharPtr) : Prop :=
  if entered then
    pending s = none ∧ index0 s < argc ∧ isCluster (argvAt argv (index0 s)) = true
      ∧ m = index0 s + 1 ∧ p = { base := argvAt argv (index0 s), off := 1 }
  else
    pending s = some p ∧ m = s.optind

instance (argc : Nat) (argv : List (List Char)) (s : State) (entered : Bool)
    (m : Nat) (p : CharPtr) : Decidable (Scans argc argv s entered m p) :=
  inferInstanceAs (Decidable (if entered then
    pending s = none ∧ index0 s < argc ∧ isCluster (argvAt argv (index0 s)) = true
      ∧ m = index0 s + 1 ∧ p = { base := argvAt argv (index0 s), off := 1 }
  else
    pending s = some p ∧ m = s.optind))

/-- The character `c` occurs in the option string: `pre` is what stands before
its first occurrence and `post` what follows it. -/
def FirstAt (optstring : List Char) (c : Char) (pre post : List Char) : Prop :=
  optstring = pre ++ c :: post ∧ c ∉ pre ∧ NUL ∉ pre

instance (optstring : List Char) (c : Char) (pre post : List Char) :
    Decidable (FirstAt optstring c pre post) :=
  inferInstanceAs (Decidable (optstring = pre ++ c :: post ∧ c ∉ pre ∧ NUL ∉ pre))

/-- The index `i` does not name an option element: it is at or past `argc`, or
`argv[i]` does not begin with `-`, or `argv[i]` is exactly `"-"`. -/
def NonOption (argc : Nat) (argv : List (List Char)) (i : Nat) : Prop :=
  argc ≤ i ∨ (cstr (argvAt argv i)).head? ≠ some '-' ∨ cstr (argvAt argv i) = ['-']

instance (argc : Nat) (argv : List (List Char)) (i : Nat) :
    Decidable (NonOption argc argv i) :=
  inferInstanceAs (Decidable (argc ≤ i ∨ (cstr (argvAt argv i)).head? ≠ some '-'
    ∨ cstr (argvAt argv i) = ['-']))

/-- Every letter still to be extracted in state `s` lies in an element
`argv[j]` with `lo ≤ j`: `optind` is at least `lo`, and so is the index of the
element a pending cursor points into. -/
def CursorFrom (argv : List (List Char)) (lo : Nat) (s : State) : Prop :=
  lo ≤ s.optind ∧ ∀ q, pending s = some q → ∃ j, lo ≤ j ∧ q.base = argvAt argv j

/-- The state after `n` successive calls of `getopt` with the same inputs. -/
def after (argc : Nat) (argv : List (List Char)) (optstring : List Char) :
    Nat → State → State
  | 0, s => s
  | n + 1, s => after argc argv optstring n (getopt argc argv optstring s).2

/-- The first `n` calls of a parse loop started in state `s`: for each call
the value returned, `optind` after it, and the string `optarg` denotes. -/
def trace (argc : Nat) (argv : List (List Char)) (optstring : List Char) :
    Nat → State → List (Int × Nat × Option (List Char))
  | 0, _ => []
  | n + 1, s =>
    let r := getopt argc argv optstring s
    (r.1, r.2.optind, r.2.optarg.map CharPtr.str) :: trace argc argv optstring n r.2

/-- The values returned by the first `n` calls of a parse loop started in
state `s`. -/
def returns (argc : Nat) (argv : List (List Char)) (optstring : List Char) :
    Nat → State → List Int
  | 0, _ => []
  | n + 1, s =>
    (getopt argc argv optstring s).1
      :: returns argc argv optstring n (getopt argc argv optstring s).2

/-- The C library call `strlen(a)`. -/
def strlen (a : List Char) : Nat := (cstr a).length

/-- The sum of the lengths of the `d` elements `argv[i]`, ..., `argv[i + d - 1]`. -/
def sumFrom (argv : List (List Char)) : Nat → Nat → Nat
  | _, 0 => 0
  | i, d + 1 => strlen (argvAt argv i) + sumFrom argv (i + 1) d

/-- The total number of characters of the elements `argv[i]`, ...,
`argv[argc - 1]`. -/
def restLen (argc : Nat) (argv : List (List Char)) (i : Nat) : Nat :=
  sumFrom argv i (argc - i)

/-- The number of characters left in the pending cluster. -/
def pendLen (s : State) : Nat :=
  match pending s with
  | some p => p.str.length
  | none => 0

/-- The characters a parse in state `s` may still extract: those left in the
pending cluster and those of the elements not yet inspected. -/
def budget (argc : Nat) (argv : List (List Char)) (s : State) : Nat :=
  pendLen s + restLen argc argv (index0 s)

/-- The cursor `next` of a state points into an option element of `argv`: the
element `argv[i]` for some `1 ≤ i < argc`, which begins with `-`, at an offset
of at least one that no terminator precedes; and while a character is pending
the element is `argv[optind - 1]`. -/
def CursorValid (argc : Nat) (argv : List (List Char)) (s : State) : Prop :=
  ∀ p, s.next = some p →
    ∃ i, 1 ≤ i ∧ i < argc ∧ p.base = argvAt argv i ∧ (argvAt argv i).getD 0 NUL = '-'
      ∧ 1 ≤ p.off ∧ (∀ k, k < p.off → p.base.getD k NUL ≠ NUL)
      ∧ (p.deref ≠ NUL → s.optind = i + 1)

/-- An element that begins with `-` and has length at least two. -/
def DashElement (a : List Char) : Prop :=
  (cstr a).head? = some '-' ∧ 2 ≤ strlen a

instance (a : List Char) : Decidable (DashElement a) :=
  inferInstanceAs (Decidable ((cstr a).head? = some '-' ∧ 2 ≤ strlen a))

/-- An option cluster: an element that begins with `-`, has length at least
two, and is not the sentinel `--`. -/
def IsOptionCluster (a : List Char) : Prop :=
  DashElement a ∧ cstr a ≠ ['-', '-']

instance (a : List Char) : Decidable (IsOptionCluster a) :=
  inferInstanceAs (Decidable (DashElement a ∧ cstr a ≠ ['-', '-']))

/-- The value the reference gives for a cluster character when no option
takes an argument: the character if it occurs in the option string, `'?'`
otherwise. -/
def flagValue (optstring : List Char) (c : Char) : Int :=
  if c ∈ cstr optstring then charInt c else UNKNOWN

/-- The characters of an element after its first one. -/
def clusterChars (a : List Char) : List Char := (cstr a).tail

/-- The left-to-right reference for flag-only input: the values of the
characters after the leading `-` of the `d` elements `argv[i]`, ...,
`argv[i + d - 1]`, in order. -/
def expectedFrom (argv : List (List Char)) (optstring : List Char) : Nat → Nat → List Int
  | _, 0 => []
  | i, d + 1 =>
    (clusterChars (argvAt argv i)).map (flagValue optstring)
      ++ expectedFrom argv optstring (i + 1) d

/-! ## The scenarios of the specification -/

theorem scenario_basic_flags :
    trace 3 ["p".toList, "-a".toList, "-B".toList] "aBn:".toList 3 fresh
      = [(97, 2, none), (66, 3, none), (-1, 3, none)] := by decide

theorem scenario_attached :
    trace 3 ["p".toList, "-n42".toList, "rest".toList] "aBn:".toList 2 fresh
      = [(110, 2, some "42".toList), (-1, 2, some "rest".toList)] := by decide

theorem scenario_separated :
    trace 4 ["p".toList, "-n".toList, "42".toList, "rest".toList] "aBn:".toList 2 fresh
      = [(110, 3, some "42".toList), (-1, 3, some "rest".toList)] := by decide

theorem scenario_cluster :
    trace 3 ["p".toList, "-aBn".toList, "42".toList] "aBn:".toList 4 fresh
      = [(97, 2, none), (66, 2, none), (110, 3, some "42".toList), (-1, 3, none)] := by
  decide

theorem scenario_sentinel :
    trace 5 ["p".toList, "-a".toList, "--".toList, "-B".toList, "x".toList] "aBn:".toList
        2 fresh
      = [(97, 2, none), (-1, 3, some "-B".toList)] := by decide

theorem scenario_unknown :
    trace 2 ["p".toList, "-z".toList] "aBn:".toList 2 fresh
      = [(63, 2, none), (-1, 2, none)] := by decide

theorem scenario_missing :
    trace 2 ["p".toList, "-n".toList] "aBn:".toList 2 fresh
      = [(63, 2, none), (-1, 2, none)] := by decide

theorem scenario_bare_dash :
    trace 4 ["p".toList, "-a".toList, "-".toList, "-B".toList] "aBn:".toList 2 fresh
      = [(97, 2, none), (-1, 2, some "-".toList)] := by decide

/-! ## The value returned for a byte from `0x80` up -/

theorem high_byte_letter_is_minus_one :
    returns 2 ["p".toList, ['-', BYTE_FF]] [BYTE_FF] 2 fresh = [-1, -1] := by decide

theorem high_byte_letters_are_negative :
    returns 2 ["p".toList, ['-', Char.ofNat 195, Char.ofNat 169]]
        [Char.ofNat 195, Char.ofNat 169] 3 fresh
      = [-61, -87, -1] := by decide

/-! ## Basic facts -/

theorem toNat_ne_of_ne {a b : Char} (h : a ≠ b) : (a.toNat : Int) ≠ (b.toNat : Int) := by
  intro e
  apply h
  have e' : a.toNat = b.toNat := by exact_mod_cast e
  apply Char.ext
  apply UInt32.ext
  simpa [Char.toNat, UInt32.toNat] using e'

theorem charInt_ascii {c : Char} (h : c.toNat < 128) : charInt c = (c.toNat : Int) := by
  unfold charInt
  rw [if_pos h]

theorem charInt_injective {a b : Char} (h : charInt a = charInt b) : a = b := by
  by_contra hab
  apply toNat_ne_of_ne hab
  unfold charInt at h
  split_ifs at h <;> omega

theorem charInt_ne_of_ne {a b : Char} (h : a ≠ b) : charInt a ≠ charInt b :=
  fun e => h (charInt_injective e)

theorem charInt_BYTE_FF : charInt BYTE_FF = EOO := by decide

theorem charInt_eq_eoo {c : Char} (h : charInt c = EOO) : c = BYTE_FF :=
  charInt_injective (h.trans charInt_BYTE_FF.symm)

theorem enter_pending {argc : Nat} {argv : List (List Char)} {s : State} {p : CharPtr}
    (h : pending s = some p) : enter argc argv s = .cluster s.optind p := by
  unfold pending at h
  unfold enter
  by_cases h0 : s.optind = 0
  · simp [h0] at h
  · cases hn : s.next with
    | none => simp [h0, hn] at h
    | some q =>
      by_cases hq : q.deref = NUL
      · simp [h0, hn, hq] at h
      · simp [h0, hn, hq] at h
        subst h
        simp [h0, hq]

theorem enter_idle {argc : Nat} {argv : List (List Char)} {s : State}
    (h : pending s = none) :
    enter argc argv s = newElement argc argv s.optind (resetNext s) := by
  unfold pending at h
  unfold enter resetNext
  by_cases h0 : s.optind = 0
  · simp [h0]
  · cases hn : s.next with
    | none => simp [h0]
    | some q =>
      by_cases hq : q.deref = NUL
      · simp [h0, hq]
      · simp [h0, hn, hq] at h

theorem index0_eq (s : State) :
    (if s.optind = 0 then s.optind + 1 else s.optind) = index0 s := by
  unfold index0
  split <;> simp_all

theorem index0_pos (s : State) : 1 ≤ index0 s := by
  unfold index0
  split <;> omega

theorem newElement_eq (argc : Nat) (argv : List (List Char)) (s : State)
    (nx : Option CharPtr) :
    newElement argc argv s.optind nx =
      if index0 s ≥ argc ∨ (argvAt argv (index0 s)).getD 0 NUL ≠ '-'
          ∨ (argvAt argv (index0 s)).getD 1 NUL = NUL then
        .finished { optind := index0 s, optarg := operand argc argv (index0 s), next := nx }
      else if cstr (argvAt argv (index0 s)) = ['-', '-'] then
        .finished { optind := index0 s + 1, optarg := operand argc argv (index0 s + 1),
                    next := nx }
      else
        .cluster (index0 s + 1) { base := argvAt argv (index0 s), off := 1 } := by
  unfold newElement
  simp only [index0_eq]

theorem newElement_cluster {argc : Nat} {argv : List (List Char)} {s : State}
    (hlt : index0 s < argc) (hcl : isCluster (argvAt argv (index0 s)) = true)
    (nx : Option CharPtr) :
    newElement argc argv s.optind nx
      = .cluster (index0 s + 1) { base := argvAt argv (index0 s), off := 1 } := by
  rw [newElement_eq]
  simp only [isCluster, Bool.and_eq_true, beq_iff_eq, bne_iff_ne, ne_eq] at hcl
  obtain ⟨⟨h1, h2⟩, h3⟩ := hcl
  simp only [Nat.not_le.mpr hlt, h1, h2, h3, ge_iff_le, ne_eq, not_true_eq_false, or_self,
    if_false]

theorem scans_enter {argc : Nat} {argv : List (List Char)} {s : State} {e : Bool}
    {m : Nat} {p : CharPtr} (h : Scans argc argv s e m p) :
    enter argc argv s = .cluster m p := by
  unfold Scans at h
  cases e with
  | true =>
    simp only [if_true] at h
    obtain ⟨hp, hlt, hcl, hm, hpp⟩ := h
    rw [enter_idle hp, newElement_cluster hlt hcl, hm, hpp]
  | false =>
    simp only [Bool.false_eq_true, if_false] at h
    obtain ⟨hp, hm⟩ := h
    rw [enter_pending hp, hm]

theorem getopt_scans {argc : Nat} {argv : List (List Char)} {s : State} {e : Bool}
    {m : Nat} {p : CharPtr} (optstring : List Char) (h : Scans argc argv s e m p) :
    getopt argc argv optstring s = extract argc argv optstring m p := by
  unfold getopt
  rw [scans_enter h]

theorem strchrFrom_split (pre post : List Char) (c : Char) (k : Nat)
    (hc : c ∉ pre) (hn : NUL ∉ pre) :
    strchrFrom (pre ++ c :: post) k c = some (k + pre.length) := by
  induction pre generalizing k with
  | nil => simp [strchrFrom]
  | cons x xs ih =>
    simp only [List.mem_cons, not_or] at hc hn
    have hx : x ≠ c := fun e => hc.1 e.symm
    have hx0 : x ≠ NUL := fun e => hn.1 e.symm
    have e : strchrFrom (x :: (xs ++ c :: post)) k c = strchrFrom (xs ++ c :: post) (k + 1) c := by
      simp only [strchrFrom, hx, hx0, if_false]
    rw [List.cons_append, e, ih (k + 1) hc.2 hn.2, List.length_cons]
    congr 1
    omega

theorem strchrFrom_none (s : List Char) (c : Char) (k : Nat)
    (hc : c ≠ NUL) (hs : c ∉ cstr s) : strchrFrom s k c = none := by
  induction s generalizing k with
  | nil => simp [strchrFrom, hc]
  | cons x xs ih =>
    unfold strchrFrom
    by_cases hx0 : x = NUL
    · have hx : x ≠ c := fun e => hc (e ▸ hx0)
      have hx' : ¬ NUL = c := fun e => hc e.symm
      simp only [hx, hx0, hx', if_false, if_true]
    · have hcs : cstr (x :: xs) = x :: cstr xs := by
        have : (x != NUL) = true := by simpa using hx0
        simp [cstr, List.takeWhile, this]
      rw [hcs] at hs
      simp only [List.mem_cons, not_or] at hs
      have hx : x ≠ c := fun e => hs.1 e.symm
      simp only [hx, hx0, if_false]
      exact ih (k + 1) hs.2

theorem strchr_firstAt {optstring : List Char} {c : Char} {pre post : List Char}
    (h : FirstAt optstring c pre post) :
    strchr optstring c = some { base := optstring, off := pre.length } := by
  obtain ⟨h1, h2, h3⟩ := h
  unfold strchr
  rw [h1, strchrFrom_split pre post c 0 h2 h3]
  simp

theorem firstAt_after {optstring : List Char} {c : Char} {pre post : List Char}
    (h : FirstAt optstring c pre post) :
    (CharPtr.succ { base := optstring, off := pre.length }).deref = post.getD 0 NUL := by
  obtain ⟨h1, _, _⟩ := h
  subst h1
  simp [CharPtr.succ, CharPtr.deref, List.getD_eq_getElem?_getD, List.getElem?_append_right]

theorem getD_zero_eq_colon (post : List Char) :
    post.getD 0 NUL = ':' ↔ post.head? = some ':' := by
  cases post with
  | nil =>
    have : NUL ≠ ':' := by decide
    simp [this]
  | cons x xs => simp

theorem scans_deref_ne {argc : Nat} {argv : List (List Char)} {s : State} {e : Bool}
    {m : Nat} {p : CharPtr} (h : Scans argc argv s e m p) : p.deref ≠ NUL := by
  unfold Scans at h
  cases e with
  | true =>
    simp only [if_true] at h
    obtain ⟨_, _, hcl, _, hpp⟩ := h
    simp only [isCluster, Bool.and_eq_true, beq_iff_eq, bne_iff_ne, ne_eq] at hcl
    subst hpp
    exact hcl.1.2
  | false =>
    simp only [Bool.false_eq_true, if_false] at h
    obtain ⟨hp, _⟩ := h
    unfold pending at hp
    by_cases h0 : s.optind = 0
    · simp [h0] at hp
    · cases hn : s.next with
      | none => simp [h0, hn] at hp
      | some q =>
        by_cases hq : q.deref = NUL
        · simp [h0, hn, hq] at hp
        · simp [h0, hn, hq] at hp
          exact hp ▸ hq

theorem scans_pos {argc : Nat} {argv : List (List Char)} {s : State} {e : Bool}
    {m : Nat} {p : CharPtr} (h : Scans argc argv s e m p) : m ≠ 0 := by
  unfold Scans at h
  cases e with
  | true =>
    simp only [if_true] at h
    omega
  | false =>
    simp only [Bool.false_eq_true, if_false] at h
    obtain ⟨hp, hm⟩ := h
    unfold pending at hp
    by_cases h0 : s.optind = 0
    · simp [h0] at hp
    · omega

theorem scans_index {argc : Nat} {argv : List (List Char)} {s : State} {e : Bool}
    {m : Nat} {p : CharPtr} (h : Scans argc argv s e m p) :
    m = if e then index0 s + 1 else s.optind := by
  unfold Scans at h
  cases e with
  | true => simp only [if_true] at h ⊢; exact h.2.2.2.1
  | false => simp only [Bool.false_eq_true, if_false] at h ⊢; exact h.2

theorem NUL_ne_dash : NUL ≠ '-' := by decide

theorem cstr_nil : cstr [] = [] := rfl

theorem cstr_cons (x : Char) (xs : List Char) :
    cstr (x :: xs) = if x = NUL then [] else x :: cstr xs := by
  by_cases h : x = NUL
  · have : (x != NUL) = false := by simpa using h
    simp [cstr, List.takeWhile, this, h]
  · have : (x != NUL) = true := by simpa using h
    simp [cstr, List.takeWhile, this, h]

theorem head_cstr_dash (a : List Char) :
    (cstr a).head? = some '-' ↔ a.getD 0 NUL = '-' := by
  cases a with
  | nil => simp [cstr_nil, NUL_ne_dash]
  | cons x xs =>
    rw [cstr_cons]
    by_cases h : x = NUL
    · subst h; simp [NUL_ne_dash]
    · simp [h]

theorem cstr_eq_dash (a : List Char) (h0 : a.getD 0 NUL = '-') :
    cstr a = ['-'] ↔ a.getD 1 NUL = NUL := by
  cases a with
  | nil => simp [NUL_ne_dash] at h0
  | cons x xs =>
    simp only [List.getD_cons_zero] at h0
    subst h0
    rw [cstr_cons]
    have hd : ¬ '-' = NUL := fun e => NUL_ne_dash e.symm
    simp only [hd, if_false, List.cons.injEq, true_and, List.getD_cons_succ]
    cases xs with
    | nil => simp [cstr_nil]
    | cons y ys =>
      rw [cstr_cons]
      by_cases hy : y = NUL
      · simp [hy]
      · simp [hy]

theorem cstr_eq_dashdash (a : List Char) (h : cstr a = ['-', '-']) :
    a.getD 0 NUL = '-' ∧ a.getD 1 NUL ≠ NUL := by
  cases a with
  | nil => simp [cstr_nil] at h
  | cons x xs =>
    rw [cstr_cons] at h
    by_cases hx : x = NUL
    · simp [hx] at h
    · simp only [hx, if_false, List.cons.injEq] at h
      obtain ⟨h1, h2⟩ := h
      cases xs with
      | nil => simp [cstr_nil] at h2
      | cons y ys =>
        rw [cstr_cons] at h2
        by_cases hy : y = NUL
        · simp [hy] at h2
        · simp only [hy, if_false, List.cons.injEq] at h2
          simp [h1, hy]

/-- An option element, in terms of the string it holds. -/
theorem isCluster_iff (a : List Char) :
    isCluster a = true ↔
      (cstr a).head? = some '-' ∧ cstr a ≠ ['-'] ∧ cstr a ≠ ['-', '-'] := by
  simp only [isCluster, Bool.and_eq_true, beq_iff_eq, bne_iff_ne, ne_eq, head_cstr_dash]
  constructor
  · rintro ⟨⟨h0, h1⟩, h2⟩
    exact ⟨h0, fun e => h1 ((cstr_eq_dash a h0).mp e), h2⟩
  · rintro ⟨h0, h1, h2⟩
    exact ⟨⟨h0, fun e => h1 ((cstr_eq_dash a h0).mpr e)⟩, h2⟩

theorem pending_eq_some {s : State} {q : CharPtr} (h : pending s = some q) :
    s.optind ≠ 0 ∧ s.next = some q ∧ q.deref ≠ NUL := by
  unfold pending at h
  by_cases h0 : s.optind = 0
  · simp [h0] at h
  · cases hn : s.next with
    | none => simp [h0, hn] at h
    | some r =>
      by_cases hr : r.deref = NUL
      · simp [h0, hn, hr] at h
      · simp [h0, hn, hr] at h
        subst h
        exact ⟨h0, rfl, hr⟩

theorem pending_mk_some (i : Nat) (oa : Option CharPtr) (q : CharPtr)
    (hi : i ≠ 0) (hq : q.deref ≠ NUL) :
    pending { optind := i, optarg := oa, next := some q } = some q := by
  simp [pending, hi, hq]

theorem pending_mk_end (i : Nat) (oa : Option CharPtr) (q : CharPtr)
    (hq : q.deref = NUL) :
    pending { optind := i, optarg := oa, next := some q } = none := by
  simp [pending, hq]

theorem pending_mk_null (i : Nat) (oa : Option CharPtr) :
    pending { optind := i, optarg := oa, next := none } = none := by
  simp [pending]

theorem index0_mk (i : Nat) (oa : Option CharPtr) (nx : Option CharPtr) (hi : i ≠ 0) :
    index0 { optind := i, optarg := oa, next := nx } = i := by
  simp [index0, hi]

/-- A call made with no cluster pending and `optind` at or past `argc`
returns `-1` and changes nothing but `optarg`, which it clears. -/
theorem getopt_exhausted (argc : Nat) (argv : List (List Char)) (optstring : List Char)
    (i : Nat) (oa nx : Option CharPtr) (hi : i ≠ 0) (hge : argc ≤ i)
    (hp : pending { optind := i, optarg := oa, next := nx } = none) :
    getopt argc argv optstring { optind := i, optarg := oa, next := nx }
      = (EOO, { optind := i, optarg := none, next := nx }) := by
  unfold getopt
  rw [enter_idle hp, newElement_eq, index0_mk i oa nx hi]
  simp [hge, operand, Nat.not_lt.mpr hge, resetNext, hi]

/-! ## The extraction step, case by case -/

theorem extract_unknown (argc : Nat) (argv : List (List Char)) (optstring : List Char)
    (m : Nat) (p : CharPtr) (hp : p.deref ≠ NUL)
    (h : p.deref ∉ cstr optstring ∨ p.deref = ':') :
    extract argc argv optstring m p
      = (UNKNOWN, { optind := m, optarg := none, next := some p.succ }) := by
  unfold extract
  rcases h with h | h
  · simp [strchr, strchrFrom_none optstring p.deref 0 hp h]
  · cases hs : strchr optstring p.deref with
    | none => simp only [hs]
    | some cp => simp only [hs]; rw [if_pos h]

theorem extract_flag (argc : Nat) (argv : List (List Char)) {optstring : List Char}
    (m : Nat) (p : CharPtr) {pre post : List Char}
    (hocc : FirstAt optstring p.deref pre post) (hc : p.deref ≠ ':')
    (hpost : post.head? ≠ some ':') :
    extract argc argv optstring m p
      = (charInt p.deref, { optind := m, optarg := none, next := some p.succ }) := by
  unfold extract
  have h2 : ¬ (CharPtr.succ { base := optstring, off := pre.length }).deref = ':' := by
    rw [firstAt_after hocc, getD_zero_eq_colon]; exact hpost
  simp [strchr_firstAt hocc, hc, h2]

theorem extract_arg (argc : Nat) (argv : List (List Char)) {optstring : List Char}
    (m : Nat) (p : CharPtr) {pre post : List Char}
    (hocc : FirstAt optstring p.deref pre post) (hc : p.deref ≠ ':')
    (hpost : post.head? = some ':') :
    extract argc argv optstring m p =
      if p.succ.deref ≠ NUL then
        (charInt p.deref, { optind := m, optarg := some p.succ, next := none })
      else if m < argc then
        (charInt p.deref, { optind := m + 1,
                                  optarg := some { base := argvAt argv m, off := 0 },
                                  next := some p.succ })
      else
        (UNKNOWN, { optind := m, optarg := none, next := some p.succ }) := by
  unfold extract
  have h2 : (CharPtr.succ { base := optstring, off := pre.length }).deref = ':' := by
    rw [firstAt_after hocc, getD_zero_eq_colon]; exact hpost
  simp [strchr_firstAt hocc, hc, h2]

theorem extract_optind (argc : Nat) (argv : List (List Char)) (optstring : List Char)
    (m : Nat) (p : CharPtr) :
    (extract argc argv optstring m p).2.optind = m
      ∨ (extract argc argv optstring m p).2.optind = m + 1 := by
  unfold extract
  simp only []
  split
  · exact Or.inl rfl
  · split_ifs <;> simp

theorem extract_next (argc : Nat) (argv : List (List Char)) (optstring : List Char)
    (m : Nat) (p : CharPtr) :
    (extract argc argv optstring m p).2.next = none
      ∨ (extract argc argv optstring m p).2.next = some p.succ := by
  unfold extract
  simp only []
  split
  · exact Or.inr rfl
  · split_ifs <;> simp

/-! ## Where later letters come from -/

theorem cursorFrom_extract {argc : Nat} {argv : List (List Char)} (optstring : List Char)
    {lo m : Nat} {p : CharPtr} (hm : lo ≤ m) (hp : ∃ j, lo ≤ j ∧ p.base = argvAt argv j) :
    CursorFrom argv lo (extract argc argv optstring m p).2 := by
  constructor
  · rcases extract_optind argc argv optstring m p with h | h <;> omega
  · intro q hq
    have hq' := (pending_eq_some hq).2.1
    rcases extract_next argc argv optstring m p with h | h
    · rw [h] at hq'; cases hq'
    · rw [h] at hq'
      cases hq'
      exact hp

theorem cursorFrom_step (argc : Nat) (argv : List (List Char)) (optstring : List Char)
    {lo : Nat} {s : State} (hlo : 1 ≤ lo) (h : CursorFrom argv lo s) :
    CursorFrom argv lo (getopt argc argv optstring s).2 := by
  obtain ⟨h1, h2⟩ := h
  have h0 : s.optind ≠ 0 := by omega
  have hi : index0 s = s.optind := by simp [index0, h0]
  unfold getopt
  cases hp : pending s with
  | some q =>
    rw [enter_pending hp]
    exact cursorFrom_extract optstring h1 (h2 q hp)
  | none =>
    have hkeep : ∀ (i : Nat) (oa : Option CharPtr), i ≠ 0 →
        pending { optind := i, optarg := oa, next := s.next } = none := by
      intro i oa hi0
      unfold pending at hp ⊢
      simp only [h0, if_false] at hp
      simp only [hi0, if_false]
      exact hp
    rw [enter_idle hp, newElement_eq, hi]
    have hr : resetNext s = s.next := by simp [resetNext, h0]
    rw [hr]
    split_ifs
    · exact ⟨h1, fun q hq => by rw [hkeep s.optind _ h0] at hq; cases hq⟩
    · refine ⟨Nat.le_succ_of_le h1, fun q hq => ?_⟩
      rw [hkeep (s.optind + 1) _ (Nat.succ_ne_zero _)] at hq
      cases hq
    · exact cursorFrom_extract optstring (Nat.le_succ_of_le h1) ⟨s.optind, h1, rfl⟩

theorem cursorFrom_after (argc : Nat) (argv : List (List Char)) (optstring : List Char)
    {lo : Nat} (hlo : 1 ≤ lo) (n : Nat) :
    ∀ s : State, CursorFrom argv lo s → CursorFrom argv lo (after argc argv optstring n s) := by
  induction n with
  | zero => intro s h; exact h
  | succ n ih =>
    intro s h
    exact ih _ (cursorFrom_step argc argv optstring hlo h)

/-- In a state all of whose remaining letters lie at or after `argv[lo]`, the
letter a call extracts lies in some `argv[j]` with `lo ≤ j`. -/
theorem cursorFrom_scans {argc : Nat} {argv : List (List Char)} {lo : Nat} {s : State}
    (hlo : 1 ≤ lo) (h : CursorFrom argv lo s) {e : Bool} {m : Nat} {q : CharPtr}
    (hs : Scans argc argv s e m q) : ∃ j, lo ≤ j ∧ q.base = argvAt argv j := by
  obtain ⟨h1, h2⟩ := h
  unfold Scans at hs
  cases e with
  | true =>
    simp only [if_true] at hs
    obtain ⟨_, _, _, _, hq⟩ := hs
    have h0 : s.optind ≠ 0 := by omega
    refine ⟨index0 s, ?_, by rw [hq]⟩
    simp [index0, h0, h1]
  | false =>
    simp only [Bool.false_eq_true, if_false] at hs
    exact h2 q hs.1

/-! ## Termination of the scan -/

theorem nonOption_iff (argc : Nat) (argv : List (List Char)) (i : Nat) :
    NonOption argc argv i ↔
      (i ≥ argc ∨ (argvAt argv i).getD 0 NUL ≠ '-' ∨ (argvAt argv i).getD 1 NUL = NUL) := by
  unfold NonOption
  by_cases h0 : (argvAt argv i).getD 0 NUL = '-'
  · have hh : (cstr (argvAt argv i)).head? = some '-' := (head_cstr_dash _).mpr h0
    simp only [hh, h0, ne_eq, not_true_eq_false, false_or, cstr_eq_dash _ h0, ge_iff_le]
  · have hh : (cstr (argvAt argv i)).head? ≠ some '-' := fun e => h0 ((head_cstr_dash _).mp e)
    simp only [hh, h0, ne_eq, not_false_eq_true, true_or, or_true]

theorem extract_result (argc : Nat) (argv : List (List Char)) (optstring : List Char)
    (m : Nat) (p : CharPtr) :
    (extract argc argv optstring m p).1 = UNKNOWN
      ∨ ((extract argc argv optstring m p).1 = charInt p.deref ∧ p.deref ≠ ':'
          ∧ strchrFrom optstring 0 p.deref ≠ none) := by
  unfold extract
  simp only []
  cases hs : strchr optstring p.deref with
  | none => exact Or.inl rfl
  | some cp =>
    have hne : strchrFrom optstring 0 p.deref ≠ none := by
      intro e
      simp [strchr, e] at hs
    simp only []
    split_ifs
    · exact Or.inl rfl
    · exact Or.inr ⟨rfl, ‹_›, hne⟩
    · exact Or.inr ⟨rfl, ‹_›, hne⟩
    · exact Or.inl rfl
    · exact Or.inr ⟨rfl, ‹_›, hne⟩

theorem BYTE_FF_ne_NUL : BYTE_FF ≠ NUL := by decide

/-- A call that extracts a character returns `-1` only for the option letter
`0xFF`. -/
theorem extract_ne_eoo (argc : Nat) (argv : List (List Char)) (optstring : List Char)
    (m : Nat) (p : CharPtr) (hff : BYTE_FF ∉ cstr optstring) :
    (extract argc argv optstring m p).1 ≠ EOO := by
  rcases extract_result argc argv optstring m p with h | ⟨h, _, hfound⟩
  · rw [h]; decide
  · rw [h]
    intro e
    have hc := charInt_eq_eoo e
    rw [hc] at hfound
    exact hfound (strchrFrom_none optstring BYTE_FF 0 BYTE_FF_ne_NUL hff)

theorem pending_reset {s : State} (h : pending s = none) (i : Nat) (oa : Option CharPtr) :
    pending { optind := i, optarg := oa, next := resetNext s } = none := by
  unfold pending resetNext at *
  by_cases h0 : s.optind = 0
  · simp [h0]
  · simp only [h0, if_false] at h ⊢
    cases hn : s.next with
    | none => simp
    | some q =>
      rw [hn] at h
      by_cases hq : q.deref = NUL
      · simp [hq]
      · simp [hq] at h

/-- A state with no cluster pending whose `optind` names no option element and
whose `optarg` is the operand there is left as it is by a call, which returns
`-1`. -/
theorem getopt_fixed (argc : Nat) (argv : List (List Char)) (optstring : List Char)
    (i : Nat) (nx : Option CharPtr) (hi : i ≠ 0)
    (hp : pending { optind := i, optarg := operand argc argv i, next := nx } = none)
    (hn : NonOption argc argv i) :
    getopt argc argv optstring { optind := i, optarg := operand argc argv i, next := nx }
      = (EOO, { optind := i, optarg := operand argc argv i, next := nx }) := by
  unfold getopt
  rw [enter_idle hp, newElement_eq, index0_mk i _ nx hi, if_pos ((nonOption_iff _ _ _).mp hn)]
  simp [resetNext, hi]

theorem after_fixed (argc : Nat) (argv : List (List Char)) (optstring : List Char)
    (t : State) (h : getopt argc argv optstring t = (EOO, t)) (n : Nat) :
    after argc argv optstring n t = t := by
  induction n with
  | zero => rfl
  | succ n ih =>
    show after argc argv optstring n (getopt argc argv optstring t).2 = t
    rw [h]
    exact ih

/-! ## The string a pointer denotes -/

theorem cstr_ne_nil_iff (l : List Char) : cstr l ≠ [] ↔ l.getD 0 NUL ≠ NUL := by
  cases l with
  | nil => simp [cstr_nil]
  | cons x xs =>
    rw [cstr_cons]
    by_cases h : x = NUL
    · simp [h]
    · simp [h]

theorem str_ne_nil_iff (q : CharPtr) : q.str ≠ [] ↔ q.deref ≠ NUL := by
  unfold CharPtr.str CharPtr.deref
  rw [cstr_ne_nil_iff]
  simp [List.getD_eq_getElem?_getD]

theorem str_start (a : List Char) : CharPtr.str { base := a, off := 0 } = cstr a := by
  simp [CharPtr.str]

theorem getopt_result (argc : Nat) (argv : List (List Char)) (optstring : List Char)
    (s : State) :
    (getopt argc argv optstring s).1 = EOO ∨ (getopt argc argv optstring s).1 = UNKNOWN
      ∨ ∃ c : Char, (getopt argc argv optstring s).1 = charInt c ∧ c ≠ ':'
          ∧ strchrFrom optstring 0 c ≠ none := by
  unfold getopt
  cases enter argc argv s with
  | finished s' => exact Or.inl rfl
  | cluster m p =>
    rcases extract_result argc argv optstring m p with h | h
    · exact Or.inr (Or.inl h)
    · exact Or.inr (Or.inr ⟨p.deref, h⟩)

/-! ## The contract of one call -/

/-- C1, as stated, fails on the first call: from the fresh state with
`argv = ["p", "-a"]` and option string `"a"` the call enters `argv[1]`,
returns `'a'` with `optarg` unset, and leaves `optind = 2`, which is the value
before the call plus two, not plus one.  It also fails for a letter that is a
byte from `0x80` up: when `argv[1]` is made of `-` and the byte `0xFF`, and the
option string of the byte `0xFF`, the call returns `-1`, not the code point
`255`. -/
theorem recognized_flag_first_call_advances_by_two :
    Scans 2 ["p".toList, "-a".toList] fresh true 2 { base := "-a".toList, off := 1 }
    ∧ FirstAt "a".toList 'a' [] []
    ∧ (getopt 2 ["p".toList, "-a".toList] "a".toList fresh).1 = ('a'.toNat : Int)
    ∧ (getopt 2 ["p".toList, "-a".toList] "a".toList fresh).2.optarg = none
    ∧ (getopt 2 ["p".toList, "-a".toList] "a".toList fresh).2.optind = 2
    ∧ (getopt 2 ["p".toList, "-a".toList] "a".toList fresh).2.optind ≠ fresh.optind + 1
    ∧ Scans 2 ["p".toList, ['-', BYTE_FF]] fresh true 2 { base := ['-', BYTE_FF], off := 1 }
    ∧ FirstAt [BYTE_FF] BYTE_FF [] []
    ∧ (getopt 2 ["p".toList, ['-', BYTE_FF]] [BYTE_FF] fresh).1 = -1
    ∧ (getopt 2 ["p".toList, ['-', BYTE_FF]] [BYTE_FF] fresh).1 ≠ (BYTE_FF.toNat : Int) := by
  decide

/-- C1, amended: when the next cluster character `c` (the pending one, or the
one right after the leading `-` of the element entered) is not `:` and its
first occurrence in the option string is not followed by `:`, `getopt`
returns `c` converted from `char` to `int`, which is the code point of `c` when
`c` is below `0x80`, and leaves `optarg` unset; `optind` is left unchanged when
the character was pending, and is left one past the element entered otherwise,
the element entered being `argv[optind]` with `optind = 0` first advanced to
`1`. -/
theorem recognized_flag (argc : Nat) (argv : List (List Char)) (optstring : List Char)
    (s : State) (entered : Bool) (m : Nat) (p : CharPtr) (pre post : List Char)
    (hscan : Scans argc argv s entered m p)
    (hocc : FirstAt optstring p.deref pre post)
    (hc : p.deref ≠ ':') (hpost : post.head? ≠ some ':') :
    (getopt argc argv optstring s).1 = charInt p.deref
    ∧ (getopt argc argv optstring s).2.optarg = none
    ∧ (getopt argc argv optstring s).2.optind
        = (if entered then index0 s + 1 else s.optind)
    ∧ (p.deref.toNat < 128 → (getopt argc argv optstring s).1 = (p.deref.toNat : Int)) := by
  rw [getopt_scans optstring hscan, extract_flag argc argv m p hocc hc hpost]
  exact ⟨rfl, rfl, scans_index hscan, fun h => charInt_ascii h⟩

/-- Witness for C1: the second call of the parse of `["p", "-aB"]` with
`"aBn:"`, where `B` is pending. -/
theorem recognized_flag_witness :
    Scans 2 ["p".toList, "-aB".toList]
        { optind := 2, optarg := none, next := some { base := "-aB".toList, off := 2 } }
        false 2 { base := "-aB".toList, off := 2 }
    ∧ (getopt 2 ["p".toList, "-aB".toList] "aBn:".toList
        { optind := 2, optarg := none, next := some { base := "-aB".toList, off := 2 } }).1
        = ('B'.toNat : Int)
    ∧ (getopt 2 ["p".toList, "-aB".toList] "aBn:".toList
        { optind := 2, optarg := none, next := some { base := "-aB".toList, off := 2 } }).2.optarg
        = none
    ∧ (getopt 2 ["p".toList, "-aB".toList] "aBn:".toList
        { optind := 2, optarg := none, next := some { base := "-aB".toList, off := 2 } }).2.optind
        = 2 :=
  have h := recognized_flag 2 ["p".toList, "-aB".toList] "aBn:".toList
    { optind := 2, optarg := none, next := some { base := "-aB".toList, off := 2 } }
    false 2 { base := "-aB".toList, off := 2 } ['a'] ['n', ':']
    (by decide) (by decide) (by decide) (by decide)
  ⟨by decide, h.2.2.2 (by decide), h.2.1, h.2.2.1⟩

/-- C2: when the extracted letter `c` is marked in the option string as taking
an argument and a character remains after it in its element, `getopt` returns
`c` (converted to `int` as `return c;` does, `charInt c`), `optarg` points at
the character after `c` (the remaining tail of the
element), `next` is `NULL`, `optind` is the index of the element following the
cluster (unchanged for a pending letter, one past the element entered
otherwise), and every letter extracted by any later call lies in an element
`argv[j]` with `j` at least that index. -/
theorem attached_argument (argc : Nat) (argv : List (List Char)) (optstring : List Char)
    (s : State) (entered : Bool) (m : Nat) (p : CharPtr) (pre post : List Char)
    (hscan : Scans argc argv s entered m p)
    (hocc : FirstAt optstring p.deref pre post)
    (hc : p.deref ≠ ':') (hpost : post.head? = some ':')
    (htail : p.succ.deref ≠ NUL) :
    getopt argc argv optstring s
      = (charInt p.deref, { optind := m, optarg := some p.succ, next := none })
    ∧ m = (if entered then index0 s + 1 else s.optind)
    ∧ ∀ (n : Nat) (e : Bool) (k : Nat) (q : CharPtr),
        Scans argc argv (after argc argv optstring n (getopt argc argv optstring s).2) e k q →
        ∃ j, m ≤ j ∧ q.base = argvAt argv j := by
  have hm : 1 ≤ m := Nat.pos_of_ne_zero (scans_pos hscan)
  have hg : getopt argc argv optstring s
      = (charInt p.deref, { optind := m, optarg := some p.succ, next := none }) := by
    rw [getopt_scans optstring hscan, extract_arg argc argv m p hocc hc hpost, if_pos htail]
  refine ⟨hg, scans_index hscan, ?_⟩
  intro n e k q hq
  rw [hg] at hq
  refine cursorFrom_scans hm (cursorFrom_after argc argv optstring hm n _ ?_) hq
  exact ⟨Nat.le_refl m, fun q hq => by rw [pending_mk_null] at hq; cases hq⟩

/-- Witness for C2: the first call of the parse of `["p", "-n42", "rest"]`
with `"aBn:"`. -/
theorem attached_argument_witness :
    Scans 3 ["p".toList, "-n42".toList, "rest".toList] fresh true 2
        { base := "-n42".toList, off := 1 }
    ∧ FirstAt "aBn:".toList 'n' ['a', 'B'] [':']
    ∧ getopt 3 ["p".toList, "-n42".toList, "rest".toList] "aBn:".toList fresh
        = (('n'.toNat : Int),
           { optind := 2, optarg := some { base := "-n42".toList, off := 2 }, next := none }) :=
  ⟨by decide, by decide,
   (attached_argument 3 ["p".toList, "-n42".toList, "rest".toList] "aBn:".toList fresh
     true 2 { base := "-n42".toList, off := 1 } ['a', 'B'] [':']
     (by decide) (by decide) (by decide) (by decide) (by decide)).1⟩

/-- C3: when the extracted letter `c` is marked as taking an argument, is the
last character of its element, and `optind < argc` once the cluster element
has been consumed, `getopt` returns `c` (converted to `int` as `return c;`
does, `charInt c`), `optarg` points at the start of the element
`argv[optind]`, whatever that element is, `optind` advances by one past
it, and every letter extracted by any later call lies in an element `argv[j]`
after it. -/
theorem separated_argument (argc : Nat) (argv : List (List Char)) (optstring : List Char)
    (s : State) (entered : Bool) (m : Nat) (p : CharPtr) (pre post : List Char)
    (hscan : Scans argc argv s entered m p)
    (hocc : FirstAt optstring p.deref pre post)
    (hc : p.deref ≠ ':') (hpost : post.head? = some ':')
    (hlast : p.succ.deref = NUL) (hlt : m < argc) :
    getopt argc argv optstring s
      = (charInt p.deref,
         { optind := m + 1, optarg := some { base := argvAt argv m, off := 0 },
           next := some p.succ })
    ∧ m = (if entered then index0 s + 1 else s.optind)
    ∧ ∀ (n : Nat) (e : Bool) (k : Nat) (q : CharPtr),
        Scans argc argv (after argc argv optstring n (getopt argc argv optstring s).2) e k q →
        ∃ j, m + 1 ≤ j ∧ q.base = argvAt argv j := by
  have hg : getopt argc argv optstring s
      = (charInt p.deref,
         { optind := m + 1, optarg := some { base := argvAt argv m, off := 0 },
           next := some p.succ }) := by
    rw [getopt_scans optstring hscan, extract_arg argc argv m p hocc hc hpost,
      if_neg (not_not.mpr hlast), if_pos hlt]
  refine ⟨hg, scans_index hscan, ?_⟩
  intro n e k q hq
  rw [hg] at hq
  refine cursorFrom_scans (Nat.succ_le_succ (Nat.zero_le m))
    (cursorFrom_after argc argv optstring (Nat.succ_le_succ (Nat.zero_le m)) n _ ?_) hq
  exact ⟨Nat.le_refl _, fun q hq => by rw [pending_mk_end _ _ _ hlast] at hq; cases hq⟩

/-- Witness for C3: the first call of the parse of `["p", "-n", "--"]` with
`"n:"`; the sentinel is taken verbatim as the argument. -/
theorem separated_argument_witness :
    Scans 3 ["p".toList, "-n".toList, "--".toList] fresh true 2
        { base := "-n".toList, off := 1 }
    ∧ FirstAt "n:".toList 'n' [] [':']
    ∧ getopt 3 ["p".toList, "-n".toList, "--".toList] "n:".toList fresh
        = (('n'.toNat : Int),
           { optind := 3, optarg := some { base := "--".toList, off := 0 },
             next := some { base := "-n".toList, off := 2 } }) :=
  ⟨by decide, by decide,
   (separated_argument 3 ["p".toList, "-n".toList, "--".toList] "n:".toList fresh
     true 2 { base := "-n".toList, off := 1 } [] [':']
     (by decide) (by decide) (by decide) (by decide) (by decide) (by decide)).1⟩

/-- C4: with no cluster pending and `i` the index inspected (`optind`, with
`0` first advanced to `1`), if `i >= argc`, or `argv[i]` does not begin with
`-`, or `argv[i]` is exactly `"-"`, then `getopt` returns `-1`, leaves
`optind = i`, and `optarg` points at `argv[i]` when `i < argc` and is `NULL`
otherwise. -/
theorem end_at_non_option (argc : Nat) (argv : List (List Char)) (optstring : List Char)
    (s : State) (hidle : pending s = none)
    (h : argc ≤ index0 s ∨ (cstr (argvAt argv (index0 s))).head? ≠ some '-'
          ∨ cstr (argvAt argv (index0 s)) = ['-']) :
    (getopt argc argv optstring s).1 = EOO
    ∧ (getopt argc argv optstring s).2.optind = index0 s
    ∧ (getopt argc argv optstring s).2.optarg
        = (if index0 s < argc then some { base := argvAt argv (index0 s), off := 0 }
           else none) := by
  have hcond : index0 s ≥ argc ∨ (argvAt argv (index0 s)).getD 0 NUL ≠ '-'
      ∨ (argvAt argv (index0 s)).getD 1 NUL = NUL := by
    rcases h with h | h | h
    · exact Or.inl h
    · exact Or.inr (Or.inl (fun e => h ((head_cstr_dash _).mpr e)))
    · have h0 : (argvAt argv (index0 s)).getD 0 NUL = '-' :=
        (head_cstr_dash _).mp (by rw [h]; rfl)
      exact Or.inr (Or.inr ((cstr_eq_dash _ h0).mp h))
  unfold getopt
  rw [enter_idle hidle, newElement_eq, if_pos hcond]
  exact ⟨rfl, rfl, rfl⟩

/-- Witness for C4: the second call of the parse of `["p", "-a", "-", "-B"]`
with `"aBn:"` stops at the bare dash. -/
theorem end_at_non_option_witness :
    pending { optind := 2, optarg := none, next := some { base := "-a".toList, off := 2 } }
      = none
    ∧ cstr (argvAt ["p".toList, "-a".toList, "-".toList, "-B".toList] 2) = ['-']
    ∧ (getopt 4 ["p".toList, "-a".toList, "-".toList, "-B".toList] "aBn:".toList
        { optind := 2, optarg := none, next := some { base := "-a".toList, off := 2 } }).1 = -1
    ∧ (getopt 4 ["p".toList, "-a".toList, "-".toList, "-B".toList] "aBn:".toList
        { optind := 2, optarg := none, next := some { base := "-a".toList, off := 2 } }).2.optind
        = 2
    ∧ (getopt 4 ["p".toList, "-a".toList, "-".toList, "-B".toList] "aBn:".toList
        { optind := 2, optarg := none, next := some { base := "-a".toList, off := 2 } }).2.optarg
        = some { base := "-".toList, off := 0 } :=
  ⟨by decide, by decide,
   end_at_non_option 4 ["p".toList, "-a".toList, "-".toList, "-B".toList] "aBn:".toList
     { optind := 2, optarg := none, next := some { base := "-a".toList, off := 2 } }
     (by decide) (Or.inr (Or.inr (by decide)))⟩

/-- C5: with no cluster pending and `i` the index inspected (`optind`, with
`0` first advanced to `1`), if `argv[i]` is exactly `"--"`, then `getopt`
returns `-1`, leaves `optind = i + 1`, and `optarg` points at `argv[i + 1]`
when `i + 1 < argc` and is `NULL` otherwise. -/
theorem end_at_sentinel (argc : Nat) (argv : List (List Char)) (optstring : List Char)
    (s : State) (hidle : pending s = none) (hlt : index0 s < argc)
    (h : cstr (argvAt argv (index0 s)) = ['-', '-']) :
    (getopt argc argv optstring s).1 = EOO
    ∧ (getopt argc argv optstring s).2.optind = index0 s + 1
    ∧ (getopt argc argv optstring s).2.optarg
        = (if index0 s + 1 < argc then some { base := argvAt argv (index0 s + 1), off := 0 }
           else none) := by
  have hcond : ¬ (index0 s ≥ argc ∨ (argvAt argv (index0 s)).getD 0 NUL ≠ '-'
      ∨ (argvAt argv (index0 s)).getD 1 NUL = NUL) := by
    have h2 := cstr_eq_dashdash _ h
    rintro (h' | h' | h')
    · omega
    · exact h' h2.1
    · exact h2.2 h'
  unfold getopt
  rw [enter_idle hidle, newElement_eq, if_neg hcond, if_pos h]
  exact ⟨rfl, rfl, rfl⟩

/-- Witness for C5: the second call of the parse of
`["p", "-a", "--", "-B", "x"]` with `"aBn:"` consumes the sentinel. -/
theorem end_at_sentinel_witness :
    pending { optind := 2, optarg := none, next := some { base := "-a".toList, off := 2 } }
      = none
    ∧ cstr (argvAt ["p".toList, "-a".toList, "--".toList, "-B".toList, "x".toList] 2)
      = ['-', '-']
    ∧ (getopt 5 ["p".toList, "-a".toList, "--".toList, "-B".toList, "x".toList] "aBn:".toList
        { optind := 2, optarg := none, next := some { base := "-a".toList, off := 2 } }).1 = -1
    ∧ (getopt 5 ["p".toList, "-a".toList, "--".toList, "-B".toList, "x".toList] "aBn:".toList
        { optind := 2, optarg := none, next := some { base := "-a".toList, off := 2 } }).2.optind
        = 3
    ∧ (getopt 5 ["p".toList, "-a".toList, "--".toList, "-B".toList, "x".toList] "aBn:".toList
        { optind := 2, optarg := none, next := some { base := "-a".toList, off := 2 } }).2.optarg
        = some { base := "-B".toList, off := 0 } :=
  ⟨by decide, by decide,
   end_at_sentinel 5 ["p".toList, "-a".toList, "--".toList, "-B".toList, "x".toList]
     "aBn:".toList
     { optind := 2, optarg := none, next := some { base := "-a".toList, off := 2 } }
     (by decide) (by decide) (by decide)⟩

/-- C6: when the extracted cluster character `c` does not occur in the option
string, or is `:`, `getopt` returns `'?'` with `optarg` unset, `optind` is the
index following the cluster element, and `next` stands one character further;
when a character remains in the cluster, it is the one the following call
extracts, without a new element being entered. -/
theorem unknown_option (argc : Nat) (argv : List (List Char)) (optstring : List Char)
    (s : State) (entered : Bool) (m : Nat) (p : CharPtr)
    (hscan : Scans argc argv s entered m p)
    (h : p.deref ∉ cstr optstring ∨ p.deref = ':') :
    getopt argc argv optstring s
      = (UNKNOWN, { optind := m, optarg := none, next := some p.succ })
    ∧ m = (if entered then index0 s + 1 else s.optind)
    ∧ (p.succ.deref ≠ NUL →
        Scans argc argv (getopt argc argv optstring s).2 false m p.succ) := by
  have hg : getopt argc argv optstring s
      = (UNKNOWN, { optind := m, optarg := none, next := some p.succ }) := by
    rw [getopt_scans optstring hscan,
      extract_unknown argc argv optstring m p (scans_deref_ne hscan) h]
  refine ⟨hg, scans_index hscan, fun hne => ?_⟩
  rw [hg]
  unfold Scans
  simp only [Bool.false_eq_true, if_false, and_true]
  exact pending_mk_some m none p.succ (scans_pos hscan) hne

/-- Witness for C6: the first call of the parse of `["p", "-Aa"]` with `"a"`;
`A` is unknown although `a` is an option, and `a` is scanned next. -/
theorem unknown_option_witness :
    Scans 2 ["p".toList, "-Aa".toList] fresh true 2 { base := "-Aa".toList, off := 1 }
    ∧ 'A' ∉ cstr "a".toList
    ∧ getopt 2 ["p".toList, "-Aa".toList] "a".toList fresh
        = (63, { optind := 2, optarg := none,
                 next := some { base := "-Aa".toList, off := 2 } })
    ∧ Scans 2 ["p".toList, "-Aa".toList]
        (getopt 2 ["p".toList, "-Aa".toList] "a".toList fresh).2 false 2
        { base := "-Aa".toList, off := 2 } :=
  ⟨by decide, by decide,
   (unknown_option 2 ["p".toList, "-Aa".toList] "a".toList fresh true 2
     { base := "-Aa".toList, off := 1 } (by decide) (Or.inl (by decide))).1,
   (unknown_option 2 ["p".toList, "-Aa".toList] "a".toList fresh true 2
     { base := "-Aa".toList, off := 1 } (by decide) (Or.inl (by decide))).2.2 (by decide)⟩

/-- C7: when the extracted letter `c` is marked as taking an argument, no
character remains after it in its element, and `optind >= argc` (for `optind`
as it stands once the cluster element has been consumed, which for a pending
letter is its value before the call), `getopt` returns `'?'` with `optarg`
unset and that `optind` unchanged, and the next call returns `-1`, changing
nothing. -/
theorem missing_argument (argc : Nat) (argv : List (List Char)) (optstring : List Char)
    (s : State) (entered : Bool) (m : Nat) (p : CharPtr) (pre post : List Char)
    (hscan : Scans argc argv s entered m p)
    (hocc : FirstAt optstring p.deref pre post)
    (hc : p.deref ≠ ':') (hpost : post.head? = some ':')
    (hlast : p.succ.deref = NUL) (hge : argc ≤ m) :
    getopt argc argv optstring s
      = (UNKNOWN, { optind := m, optarg := none, next := some p.succ })
    ∧ m = (if entered then index0 s + 1 else s.optind)
    ∧ getopt argc argv optstring (getopt argc argv optstring s).2
      = (EOO, (getopt argc argv optstring s).2) := by
  have hg : getopt argc argv optstring s
      = (UNKNOWN, { optind := m, optarg := none, next := some p.succ }) := by
    rw [getopt_scans optstring hscan, extract_arg argc argv m p hocc hc hpost,
      if_neg (not_not.mpr hlast), if_neg (Nat.not_lt.mpr hge)]
  refine ⟨hg, scans_index hscan, ?_⟩
  rw [hg]
  exact getopt_exhausted argc argv optstring m none (some p.succ) (scans_pos hscan) hge
    (pending_mk_end m none p.succ hlast)

/-- Witness for C7: the second call of the parse of `["p", "-an"]` with
`"aBn:"`, where `n` is pending and nothing follows. -/
theorem missing_argument_witness :
    Scans 2 ["p".toList, "-an".toList]
        { optind := 2, optarg := none, next := some { base := "-an".toList, off := 2 } }
        false 2 { base := "-an".toList, off := 2 }
    ∧ FirstAt "aBn:".toList 'n' ['a', 'B'] [':']
    ∧ getopt 2 ["p".toList, "-an".toList] "aBn:".toList
        { optind := 2, optarg := none, next := some { base := "-an".toList, off := 2 } }
        = (63, { optind := 2, optarg := none,
                 next := some { base := "-an".toList, off := 3 } })
    ∧ (getopt 2 ["p".toList, "-an".toList] "aBn:".toList
        (getopt 2 ["p".toList, "-an".toList] "aBn:".toList
          { optind := 2, optarg := none,
            next := some { base := "-an".toList, off := 2 } }).2).1 = -1 :=
  ⟨by decide, by decide,
   (missing_argument 2 ["p".toList, "-an".toList] "aBn:".toList
     { optind := 2, optarg := none, next := some { base := "-an".toList, off := 2 } }
     false 2 { base := "-an".toList, off := 2 } ['a', 'B'] [':']
     (by decide) (by decide) (by decide) (by decide) (by decide) (by decide)).1,
   congrArg Prod.fst
     (missing_argument 2 ["p".toList, "-an".toList] "aBn:".toList
       { optind := 2, optarg := none, next := some { base := "-an".toList, off := 2 } }
       false 2 { base := "-an".toList, off := 2 } ['a', 'B'] [':']
       (by decide) (by decide) (by decide) (by decide) (by decide) (by decide)).2.2⟩

/-! ## Invariants across calls -/

/-- C8, as stated, fails: in the parse of `["p", "-a", "--", "-B", "x"]` with
`"aBn:"` the second call consumes the sentinel and returns `-1` with
`optind = 3`, and the third call, made with the same inputs and no reset,
returns `'B'` and leaves `optind = 4`.  It also fails when the byte `0xFF` is
an option letter: when `argv[1]` is made of `-`, the byte `0xFF` and `a`, and
the option string of the byte `0xFF` and `a`, the first call returns the letter
`0xFF` as `-1` and the second call returns `'a'`. -/
theorem termination_not_idempotent_after_sentinel :
    (getopt 5 ["p".toList, "-a".toList, "--".toList, "-B".toList, "x".toList] "aBn:".toList
      (after 5 ["p".toList, "-a".toList, "--".toList, "-B".toList, "x".toList] "aBn:".toList
        1 fresh)).1 = -1
    ∧ (after 5 ["p".toList, "-a".toList, "--".toList, "-B".toList, "x".toList] "aBn:".toList
        2 fresh).optind = 3
    ∧ (getopt 5 ["p".toList, "-a".toList, "--".toList, "-B".toList, "x".toList] "aBn:".toList
        (after 5 ["p".toList, "-a".toList, "--".toList, "-B".toList, "x".toList] "aBn:".toList
          2 fresh)).1 = ('B'.toNat : Int)
    ∧ (after 5 ["p".toList, "-a".toList, "--".toList, "-B".toList, "x".toList] "aBn:".toList
        3 fresh).optind = 4
    ∧ (getopt 2 ["p".toList, ['-', BYTE_FF, 'a']] [BYTE_FF, 'a'] fresh).1 = -1
    ∧ (getopt 2 ["p".toList, ['-', BYTE_FF, 'a']] [BYTE_FF, 'a']
        (after 2 ["p".toList, ['-', BYTE_FF, 'a']] [BYTE_FF, 'a'] 1 fresh)).1
        = ('a'.toNat : Int) := by
  decide

/-- C8, amended: with an option string that does not contain the byte `0xFF`,
after a call of `getopt` that returns `-1`, every subsequent call with the
same inputs returns `-1` and leaves the state, `optind` included, as the
terminating call left it, provided that, when the terminating call consumed a
`"--"` sentinel, the index after the sentinel names no option element (it is
at or past `argc`, or the element there does not begin with `-`, or is exactly
`"-"`). -/
theorem termination_idempotent (argc : Nat) (argv : List (List Char))
    (optstring : List Char) (s : State)
    (hff : BYTE_FF ∉ cstr optstring)
    (hret : (getopt argc argv optstring s).1 = EOO)
    (hstop : index0 s < argc → cstr (argvAt argv (index0 s)) = ['-', '-'] →
      NonOption argc argv (index0 s + 1)) (n : Nat) :
    getopt argc argv optstring
        (after argc argv optstring n (getopt argc argv optstring s).2)
      = (EOO, (getopt argc argv optstring s).2) := by
  have hidle : pending s = none := by
    cases hp : pending s with
    | none => rfl
    | some q =>
      exfalso
      unfold getopt at hret
      rw [enter_pending hp] at hret
      exact extract_ne_eoo _ _ _ _ _ hff hret
  have hfix : getopt argc argv optstring (getopt argc argv optstring s).2
      = (EOO, (getopt argc argv optstring s).2) := by
    have hpos := index0_pos s
    unfold getopt at hret ⊢
    rw [enter_idle hidle, newElement_eq] at hret ⊢
    split_ifs at hret ⊢ with h1 h2
    · exact getopt_fixed argc argv optstring (index0 s) _ (by omega)
        (pending_reset hidle _ _) ((nonOption_iff _ _ _).mpr h1)
    · have hlt : index0 s < argc := by
        by_contra hc
        exact h1 (Or.inl (Nat.le_of_not_lt hc))
      exact getopt_fixed argc argv optstring (index0 s + 1) _ (Nat.succ_ne_zero _)
        (pending_reset hidle _ _) (hstop hlt h2)
    · exact absurd hret (extract_ne_eoo _ _ _ _ _ hff)
  rw [after_fixed argc argv optstring _ hfix n]
  exact hfix

/-- Witness for C8: the parse of `["p", "-a", "--", "x"]` with `"aBn:"` stays
at the end of options after the sentinel has been consumed. -/
theorem termination_idempotent_witness :
    BYTE_FF ∉ cstr "aBn:".toList
    ∧ (getopt 4 ["p".toList, "-a".toList, "--".toList, "x".toList] "aBn:".toList
      { optind := 2, optarg := none, next := some { base := "-a".toList, off := 2 } }).1 = -1
    ∧ NonOption 4 ["p".toList, "-a".toList, "--".toList, "x".toList] 3
    ∧ getopt 4 ["p".toList, "-a".toList, "--".toList, "x".toList] "aBn:".toList
        (after 4 ["p".toList, "-a".toList, "--".toList, "x".toList] "aBn:".toList 5
          (getopt 4 ["p".toList, "-a".toList, "--".toList, "x".toList] "aBn:".toList
            { optind := 2, optarg := none,
              next := some { base := "-a".toList, off := 2 } }).2)
      = (-1, { optind := 3, optarg := some { base := "x".toList, off := 0 },
               next := some { base := "-a".toList, off := 2 } }) :=
  ⟨by decide, by decide, by decide,
   termination_idempotent 4 ["p".toList, "-a".toList, "--".toList, "x".toList] "aBn:".toList
     { optind := 2, optarg := none, next := some { base := "-a".toList, off := 2 } }
     (by decide) (by decide) (fun _ _ => by decide) 5⟩

/-- C9, as stated, fails for `-`: in the parse of `["p", "-a-"]` with the
option string `"a-"` the second call extracts the second `-` of the element and
returns `'-'` as a recognized option, not `'?'`. -/
theorem dash_in_optstring_is_matched :
    Scans 2 ["p".toList, "-a-".toList]
        (after 2 ["p".toList, "-a-".toList] "a-".toList 1 fresh) false 2
        { base := "-a-".toList, off := 2 }
    ∧ CharPtr.deref { base := "-a-".toList, off := 2 } = '-'
    ∧ (getopt 2 ["p".toList, "-a-".toList] "a-".toList
        (after 2 ["p".toList, "-a-".toList] "a-".toList 1 fresh)).1 = ('-'.toNat : Int)
    ∧ (getopt 2 ["p".toList, "-a-".toList] "a-".toList
        (after 2 ["p".toList, "-a-".toList] "a-".toList 1 fresh)).1 ≠ UNKNOWN := by
  decide

/-- C9, amended: for every argv, every option string and every state, no call
of `getopt` returns `':'`, and extracting `:` from a cluster yields `'?'`; when
`-` does not occur in the option string, no call returns `'-'` and extracting
`-` from a cluster yields `'?'`. -/
theorem reserved_characters (argc : Nat) (argv : List (List Char)) (optstring : List Char)
    (s : State) :
    (getopt argc argv optstring s).1 ≠ (':'.toNat : Int)
    ∧ (∀ (e : Bool) (m : Nat) (p : CharPtr), Scans argc argv s e m p → p.deref = ':' →
        (getopt argc argv optstring s).1 = UNKNOWN)
    ∧ ('-' ∉ cstr optstring →
        (getopt argc argv optstring s).1 ≠ ('-'.toNat : Int)
        ∧ ∀ (e : Bool) (m : Nat) (p : CharPtr), Scans argc argv s e m p → p.deref = '-' →
            (getopt argc argv optstring s).1 = UNKNOWN) := by
  refine ⟨?_, ?_, ?_⟩
  · rcases getopt_result argc argv optstring s with h | h | ⟨c, h, hc, _⟩
    · rw [h]; decide
    · rw [h]; decide
    · rw [h, ← @charInt_ascii ':' (by decide)]
      exact charInt_ne_of_ne hc
  · intro e m p hscan hp
    rw [getopt_scans optstring hscan,
      extract_unknown argc argv optstring m p (scans_deref_ne hscan) (Or.inr hp)]
  · intro hdash
    constructor
    · rcases getopt_result argc argv optstring s with h | h | ⟨c, h, _, hc⟩
      · rw [h]; decide
      · rw [h]; decide
      · rw [h, ← @charInt_ascii '-' (by decide)]
        apply charInt_ne_of_ne
        intro e
        subst e
        exact hc (strchrFrom_none optstring '-' 0 (fun e => NUL_ne_dash e.symm) hdash)
    · intro e m p hscan hp
      rw [getopt_scans optstring hscan,
        extract_unknown argc argv optstring m p (scans_deref_ne hscan) (Or.inl (hp ▸ hdash))]

/-- Witness for C9: the second `-` of the element `"---"`, pending in the parse
of `["p", "---"]` with the option string `"a"`, yields `'?'`. -/
theorem reserved_characters_witness :
    Scans 2 ["p".toList, "---".toList]
        { optind := 2, optarg := none, next := some { base := "---".toList, off := 2 } }
        false 2 { base := "---".toList, off := 2 }
    ∧ '-' ∉ cstr "a".toList
    ∧ (getopt 2 ["p".toList, "---".toList] "a".toList
        { optind := 2, optarg := none,
          next := some { base := "---".toList, off := 2 } }).1 = 63 :=
  ⟨by decide, by decide,
   ((reserved_characters 2 ["p".toList, "---".toList] "a".toList
      { optind := 2, optarg := none,
        next := some { base := "---".toList, off := 2 } }).2.2 (by decide)).2
      false 2 { base := "---".toList, off := 2 } (by decide) (by decide)⟩

/-- C10, as stated, fails in the separated form: in the parse of
`["p", "-n", ""]` with `"n:"` the first call returns `'n'` with `optarg`
pointing at the element `argv[2]`, which is the empty string. -/
theorem separated_argument_may_be_empty :
    Scans 3 ["p".toList, "-n".toList, []] fresh true 2 { base := "-n".toList, off := 1 }
    ∧ FirstAt "n:".toList 'n' [] [':']
    ∧ getopt 3 ["p".toList, "-n".toList, []] "n:".toList fresh
        = (('n'.toNat : Int),
           { optind := 3, optarg := some { base := [], off := 0 },
             next := some { base := "-n".toList, off := 2 } })
    ∧ CharPtr.str { base := [], off := 0 } = [] := by
  decide

/-- C10, amended: when a call extracts a letter found in the option string,
then, if the letter takes an argument and the call returns it, converted to
`int` (a character remains after it in its element, or `optind < argc`),
`optarg` is set: in the
attached form it denotes a non-empty string, in the separated form it denotes
the element `argv[optind]` as it is, empty when that element is empty; and if
the letter takes no argument, the call returns it with `optarg` unset. -/
theorem argument_slot (argc : Nat) (argv : List (List Char)) (optstring : List Char)
    (s : State) (entered : Bool) (m : Nat) (p : CharPtr) (pre post : List Char)
    (hscan : Scans argc argv s entered m p)
    (hocc : FirstAt optstring p.deref pre post) (hc : p.deref ≠ ':') :
    (post.head? = some ':' → (p.succ.deref ≠ NUL ∨ m < argc) →
      (getopt argc argv optstring s).1 = charInt p.deref
      ∧ ∃ q, (getopt argc argv optstring s).2.optarg = some q
          ∧ (p.succ.deref ≠ NUL → q = p.succ ∧ q.str ≠ [])
          ∧ (p.succ.deref = NUL → q.str = cstr (argvAt argv m)))
    ∧ (post.head? ≠ some ':' →
      (getopt argc argv optstring s).1 = charInt p.deref
      ∧ (getopt argc argv optstring s).2.optarg = none) := by
  constructor
  · intro hpost hav
    rw [getopt_scans optstring hscan, extract_arg argc argv m p hocc hc hpost]
    by_cases htail : p.succ.deref ≠ NUL
    · rw [if_pos htail]
      exact ⟨rfl, p.succ, rfl, fun _ => ⟨rfl, (str_ne_nil_iff _).mpr htail⟩,
        fun h => absurd h htail⟩
    · have hlt : m < argc := hav.resolve_left htail
      rw [if_neg htail, if_pos hlt]
      exact ⟨rfl, _, rfl, fun h => absurd h htail, fun _ => str_start _⟩
  · intro hpost
    rw [getopt_scans optstring hscan, extract_flag argc argv m p hocc hc hpost]
    exact ⟨rfl, rfl⟩

/-- Witness for C10: the third call of the parse of `["p", "-aBn", "42"]` with
`"aBn:"` returns `'n'` with `optarg` denoting `"42"`. -/
theorem argument_slot_witness :
    Scans 3 ["p".toList, "-aBn".toList, "42".toList]
        { optind := 2, optarg := none, next := some { base := "-aBn".toList, off := 3 } }
        false 2 { base := "-aBn".toList, off := 3 }
    ∧ FirstAt "aBn:".toList 'n' ['a', 'B'] [':']
    ∧ (getopt 3 ["p".toList, "-aBn".toList, "42".toList] "aBn:".toList
        { optind := 2, optarg := none,
          next := some { base := "-aBn".toList, off := 3 } }).1 = ('n'.toNat : Int)
    ∧ ∃ q, (getopt 3 ["p".toList, "-aBn".toList, "42".toList] "aBn:".toList
        { optind := 2, optarg := none,
          next := some { base := "-aBn".toList, off := 3 } }).2.optarg = some q
        ∧ q.str = "42".toList :=
  have h := (argument_slot 3 ["p".toList, "-aBn".toList, "42".toList] "aBn:".toList
    { optind := 2, optarg := none, next := some { base := "-aBn".toList, off := 3 } }
    false 2 { base := "-aBn".toList, off := 3 } ['a', 'B'] [':']
    (by decide) (by decide) (by decide)).1 (by decide) (Or.inr (by decide))
  ⟨by decide, by decide, h.1,
   h.2.elim (fun q hq => ⟨q, hq.1, (hq.2.2 (by decide)).trans (by decide)⟩)⟩

/-! ## Facts about sequences of calls -/

theorem enter_reset (argc : Nat) (argv : List (List Char)) (oa nx : Option CharPtr) :
    enter argc argv { optind := 0, optarg := oa, next := nx } = enter argc argv fresh := by
  simp [enter, fresh]

theorem getopt_reset (argc : Nat) (argv : List (List Char)) (optstring : List Char)
    (oa nx : Option CharPtr) :
    getopt argc argv optstring { optind := 0, optarg := oa, next := nx }
      = getopt argc argv optstring fresh := by
  unfold getopt
  rw [enter_reset]

theorem after_succ (argc : Nat) (argv : List (List Char)) (optstring : List Char)
    (n : Nat) (s : State) :
    after argc argv optstring (n + 1) s
      = after argc argv optstring n (getopt argc argv optstring s).2 := rfl

theorem after_add (argc : Nat) (argv : List (List Char)) (optstring : List Char)
    (a b : Nat) (s : State) :
    after argc argv optstring (a + b) s
      = after argc argv optstring b (after argc argv optstring a s) := by
  induction a generalizing s with
  | zero => simp [after]
  | succ a ih =>
    rw [Nat.succ_add, after_succ, after_succ, ih]

theorem after_succ_last (argc : Nat) (argv : List (List Char)) (optstring : List Char)
    (n : Nat) (s : State) :
    after argc argv optstring (n + 1) s
      = (getopt argc argv optstring (after argc argv optstring n s)).2 := by
  rw [after_add argc argv optstring n 1 s]
  rfl

theorem returns_add (argc : Nat) (argv : List (List Char)) (optstring : List Char)
    (a b : Nat) (s : State) :
    returns argc argv optstring (a + b) s
      = returns argc argv optstring a s
        ++ returns argc argv optstring b (after argc argv optstring a s) := by
  induction a generalizing s with
  | zero => simp [returns, after]
  | succ a ih =>
    rw [Nat.succ_add]
    simp only [returns, after, ih, List.cons_append]

/-- Either the call returns `-1` from lines 132-151, or it extracts a
character. -/
theorem enter_spec (argc : Nat) (argv : List (List Char)) (s : State) :
    (∃ t, enter argc argv s = .finished t ∧ pending s = none ∧ t.next = resetNext s
        ∧ (t.optind = index0 s ∨ t.optind = index0 s + 1))
    ∨ (∃ e m p, enter argc argv s = .cluster m p ∧ Scans argc argv s e m p) := by
  cases hp : pending s with
  | some q =>
    refine Or.inr ⟨false, s.optind, q, enter_pending hp, ?_⟩
    simp [Scans, hp]
  | none =>
    rw [enter_idle hp, newElement_eq]
    split_ifs with h1 h2
    · exact Or.inl ⟨_, rfl, rfl, rfl, Or.inl rfl⟩
    · exact Or.inl ⟨_, rfl, rfl, rfl, Or.inr rfl⟩
    · refine Or.inr ⟨true, _, _, rfl, ?_⟩
      have hlt : index0 s < argc := by
        by_contra hc
        exact h1 (Or.inl (Nat.le_of_not_lt hc))
      have h0 : (argvAt argv (index0 s)).getD 0 NUL = '-' := by
        by_contra hc
        exact h1 (Or.inr (Or.inl hc))
      have h1' : (argvAt argv (index0 s)).getD 1 NUL ≠ NUL := fun hc =>
        h1 (Or.inr (Or.inr hc))
      have hcl : isCluster (argvAt argv (index0 s)) = true := by
        simp only [isCluster, Bool.and_eq_true, beq_iff_eq, bne_iff_ne, ne_eq]
        exact ⟨⟨h0, h1'⟩, h2⟩
      unfold Scans
      rw [if_pos rfl]
      exact ⟨hp, hlt, hcl, rfl, rfl⟩

theorem scans_of_ne_eoo {argc : Nat} {argv : List (List Char)} {optstring : List Char}
    {s : State} (h : (getopt argc argv optstring s).1 ≠ EOO) :
    ∃ e m p, Scans argc argv s e m p := by
  rcases enter_spec argc argv s with ⟨t, ht, _⟩ | ⟨e, m, p, _, hs⟩
  · exfalso
    apply h
    unfold getopt
    rw [ht]
  · exact ⟨e, m, p, hs⟩

/-! ## Relations between parses -/

/-- C11: a call made with `optind == 0` does not depend on the cursor `next`
or on `optarg` left by earlier calls: it returns what the first call of a
parse returns and leaves the same state, so that the calls made after a reset
yield the same return values, `optind` values and `optarg` strings as a parse
from the initial state. -/
theorem reset_idempotence (argc : Nat) (argv : List (List Char)) (optstring : List Char)
    (s : State) :
    getopt argc argv optstring { optind := 0, optarg := s.optarg, next := s.next }
      = getopt argc argv optstring fresh
    ∧ ∀ n : Nat,
        trace argc argv optstring n { optind := 0, optarg := s.optarg, next := s.next }
          = trace argc argv optstring n fresh := by
  refine ⟨getopt_reset argc argv optstring s.optarg s.next, fun n => ?_⟩
  cases n with
  | zero => rfl
  | succ n =>
    simp only [trace]
    rw [getopt_reset argc argv optstring s.optarg s.next]

theorem isCluster_letters (x : Char) (rest : List Char) (hx0 : x ≠ NUL)
    (h : cstr ('-' :: x :: rest) ≠ ['-', '-']) : isCluster ('-' :: x :: rest) = true := by
  simp only [isCluster, Bool.and_eq_true, beq_iff_eq, bne_iff_ne, ne_eq, List.getD_cons_zero,
    List.getD_cons_succ]
  exact ⟨⟨trivial, hx0⟩, h⟩

theorem cstr_dash_letter (x : Char) (hx0 : x ≠ NUL) : cstr ['-', x] = ['-', x] := by
  have hd : ¬ '-' = NUL := fun e => NUL_ne_dash e.symm
  simp [cstr_cons, cstr_nil, hd, hx0]

theorem cstr_dash_letters (x y : Char) (hx0 : x ≠ NUL) (hy0 : y ≠ NUL) :
    cstr ['-', x, y] = ['-', x, y] := by
  have hd : ¬ '-' = NUL := fun e => NUL_ne_dash e.symm
  simp [cstr_cons, cstr_nil, hd, hx0, hy0]

/-- C12: for option letters `x` and `y` (characters other than the reserved
`:` and `-`) that occur in the option string and take no argument, the parses
of `[prog, "-xy"]` and of `[prog, "-x", "-y"]` from the fresh state both
return `x`, then `y` (each converted to `int` as `return c;` does), then
`-1`. -/
theorem cluster_equivalence (optstring prog : List Char) (x y : Char)
    (prex postx prey posty : List Char)
    (hx : FirstAt optstring x prex postx) (hy : FirstAt optstring y prey posty)
    (hxa : postx.head? ≠ some ':') (hya : posty.head? ≠ some ':')
    (hx0 : x ≠ NUL) (hy0 : y ≠ NUL) (hxc : x ≠ ':') (hyc : y ≠ ':')
    (hxd : x ≠ '-') (hyd : y ≠ '-') :
    returns 2 [prog, ['-', x, y]] optstring 3 fresh = [charInt x, charInt y, EOO]
    ∧ returns 3 [prog, ['-', x], ['-', y]] optstring 3 fresh
        = [charInt x, charInt y, EOO] := by
  constructor
  · have hs1 : Scans 2 [prog, ['-', x, y]] fresh true 2 { base := ['-', x, y], off := 1 } := by
      unfold Scans
      rw [if_pos rfl]
      refine ⟨rfl, by decide, ?_, rfl, rfl⟩
      apply isCluster_letters x [y] hx0
      rw [cstr_dash_letters x y hx0 hy0]
      simp
    have h1 : getopt 2 [prog, ['-', x, y]] optstring fresh
        = (charInt x,
           { optind := 2, optarg := none, next := some { base := ['-', x, y], off := 2 } }) := by
      rw [getopt_scans optstring hs1]
      exact extract_flag 2 _ 2 { base := ['-', x, y], off := 1 } hx hxc hxa
    have hs2 : Scans 2 [prog, ['-', x, y]]
        { optind := 2, optarg := none, next := some { base := ['-', x, y], off := 2 } }
        false 2 { base := ['-', x, y], off := 2 } := by
      unfold Scans
      rw [if_neg (by decide)]
      exact ⟨pending_mk_some 2 none _ (by decide) hy0, rfl⟩
    have h2 : getopt 2 [prog, ['-', x, y]] optstring
        { optind := 2, optarg := none, next := some { base := ['-', x, y], off := 2 } }
        = (charInt y,
           { optind := 2, optarg := none, next := some { base := ['-', x, y], off := 3 } }) := by
      rw [getopt_scans optstring hs2]
      exact extract_flag 2 _ 2 { base := ['-', x, y], off := 2 } hy hyc hya
    have h3 : getopt 2 [prog, ['-', x, y]] optstring
        { optind := 2, optarg := none, next := some { base := ['-', x, y], off := 3 } }
        = (EOO, { optind := 2, optarg := none,
                  next := some { base := ['-', x, y], off := 3 } }) :=
      getopt_exhausted 2 _ optstring 2 none _ (by decide) (Nat.le_refl 2)
        (pending_mk_end 2 none _ rfl)
    simp only [returns, h1, h2, h3]
  · have hs1 : Scans 3 [prog, ['-', x], ['-', y]] fresh true 2 { base := ['-', x], off := 1 } := by
      unfold Scans
      rw [if_pos rfl]
      refine ⟨rfl, by decide, ?_, rfl, rfl⟩
      apply isCluster_letters x [] hx0
      rw [cstr_dash_letter x hx0]
      simp [hxd]
    have h1 : getopt 3 [prog, ['-', x], ['-', y]] optstring fresh
        = (charInt x,
           { optind := 2, optarg := none, next := some { base := ['-', x], off := 2 } }) := by
      rw [getopt_scans optstring hs1]
      exact extract_flag 3 _ 2 { base := ['-', x], off := 1 } hx hxc hxa
    have hs2 : Scans 3 [prog, ['-', x], ['-', y]]
        { optind := 2, optarg := none, next := some { base := ['-', x], off := 2 } }
        true 3 { base := ['-', y], off := 1 } := by
      unfold Scans
      rw [if_pos rfl]
      refine ⟨pending_mk_end 2 none _ rfl, Nat.lt_succ_self 2, ?_, rfl, rfl⟩
      apply isCluster_letters y [] hy0
      rw [cstr_dash_letter y hy0]
      simp [hyd]
    have h2 : getopt 3 [prog, ['-', x], ['-', y]] optstring
        { optind := 2, optarg := none, next := some { base := ['-', x], off := 2 } }
        = (charInt y,
           { optind := 3, optarg := none, next := some { base := ['-', y], off := 2 } }) := by
      rw [getopt_scans optstring hs2]
      exact extract_flag 3 _ 3 { base := ['-', y], off := 1 } hy hyc hya
    have h3 : getopt 3 [prog, ['-', x], ['-', y]] optstring
        { optind := 3, optarg := none, next := some { base := ['-', y], off := 2 } }
        = (EOO, { optind := 3, optarg := none,
                  next := some { base := ['-', y], off := 2 } }) :=
      getopt_exhausted 3 _ optstring 3 none _ (by decide) (Nat.le_refl 3)
        (pending_mk_end 3 none _ rfl)
    simp only [returns, h1, h2, h3]

/-- Witness for C12: the letters `a` and `B` of the option string `"aBn:"`. -/
theorem cluster_equivalence_witness :
    FirstAt "aBn:".toList 'a' [] ['B', 'n', ':']
    ∧ FirstAt "aBn:".toList 'B' ['a'] ['n', ':']
    ∧ returns 2 ["prog".toList, ['-', 'a', 'B']] "aBn:".toList 3 fresh = [97, 66, -1]
    ∧ returns 3 ["prog".toList, ['-', 'a'], ['-', 'B']] "aBn:".toList 3 fresh = [97, 66, -1] :=
  ⟨by decide, by decide,
   cluster_equivalence "aBn:".toList "prog".toList 'a' 'B' [] ['B', 'n', ':'] ['a'] ['n', ':']
     (by decide) (by decide) (by decide) (by decide) (by decide) (by decide) (by decide)
     (by decide) (by decide) (by decide)⟩

/-! ## Termination of the parse loop -/

theorem restLen_step {argc : Nat} (argv : List (List Char)) {i : Nat} (h : i < argc) :
    restLen argc argv i = strlen (argvAt argv i) + restLen argc argv (i + 1) := by
  unfold restLen
  have e : argc - i = (argc - (i + 1)) + 1 := by omega
  rw [e]
  rfl

theorem restLen_succ_le (argc : Nat) (argv : List (List Char)) (i : Nat) :
    restLen argc argv (i + 1) ≤ restLen argc argv i := by
  by_cases h : i < argc
  · rw [restLen_step argv h]
    omega
  · unfold restLen
    have e : argc - (i + 1) = 0 := by omega
    rw [e]
    exact Nat.zero_le _

theorem deref_lt_length {p : CharPtr} (h : p.deref ≠ NUL) : p.off < p.base.length := by
  by_contra hc
  apply h
  unfold CharPtr.deref
  rw [List.getD_eq_default _ _ (Nat.le_of_not_lt hc)]

theorem str_succ {p : CharPtr} (h : p.deref ≠ NUL) : p.str = p.deref :: p.succ.str := by
  have hlt := deref_lt_length h
  have hd : p.deref = p.base[p.off] := by
    unfold CharPtr.deref
    rw [List.getD_eq_getElem _ _ hlt]
  unfold CharPtr.str CharPtr.succ
  rw [List.drop_eq_getElem_cons hlt, cstr_cons, ← hd, if_neg h]

theorem str_start_cluster {a : List Char} (h : a.getD 0 NUL = '-') :
    cstr a = '-' :: CharPtr.str { base := a, off := 1 } := by
  have h0 : (CharPtr.deref { base := a, off := 0 }) ≠ NUL := by
    show a.getD 0 NUL ≠ NUL
    rw [h]
    exact fun e => NUL_ne_dash e.symm
  have := str_succ h0
  rw [str_start] at this
  rw [this]
  show a.getD 0 NUL :: _ = _
  rw [h]
  rfl

theorem pendLen_extract_le (argc : Nat) (argv : List (List Char)) (optstring : List Char)
    (m : Nat) (p : CharPtr) :
    pendLen (extract argc argv optstring m p).2 ≤ p.succ.str.length := by
  unfold pendLen
  cases hq : pending (extract argc argv optstring m p).2 with
  | none => exact Nat.zero_le _
  | some q =>
    have hn := (pending_eq_some hq).2.1
    rcases extract_next argc argv optstring m p with h | h
    · rw [h] at hn; cases hn
    · rw [h] at hn
      cases hn
      exact Nat.le_refl _

theorem index0_extract (argc : Nat) (argv : List (List Char)) (optstring : List Char)
    {m : Nat} (p : CharPtr) (hm : m ≠ 0) :
    index0 (extract argc argv optstring m p).2 = m
      ∨ index0 (extract argc argv optstring m p).2 = m + 1 := by
  rcases extract_optind argc argv optstring m p with h | h
  · left; unfold index0; rw [h]; simp [hm]
  · right; unfold index0; rw [h]; simp

/-- Every call that does not return `-1` lowers the budget. -/
theorem budget_decreases (argc : Nat) (argv : List (List Char)) (optstring : List Char)
    (s : State) (h : (getopt argc argv optstring s).1 ≠ EOO) :
    budget argc argv (getopt argc argv optstring s).2 < budget argc argv s := by
  obtain ⟨e, m, p, hs⟩ := scans_of_ne_eoo h
  rw [getopt_scans optstring hs]
  have hm := scans_pos hs
  have hp := scans_deref_ne hs
  have hlen : p.str.length = p.succ.str.length + 1 := by rw [str_succ hp]; rfl
  have h1 := pendLen_extract_le argc argv optstring m p
  have h2 : restLen argc argv (index0 (extract argc argv optstring m p).2)
      ≤ restLen argc argv m := by
    rcases index0_extract argc argv optstring p hm with h | h
    · rw [h]
    · rw [h]; exact restLen_succ_le argc argv m
  unfold budget
  unfold Scans at hs
  cases e with
  | true =>
    rw [if_pos rfl] at hs
    obtain ⟨hpd, hlt, hcl, hm', hpp⟩ := hs
    have hidle : pendLen s = 0 := by unfold pendLen; rw [hpd]
    simp only [isCluster, Bool.and_eq_true, beq_iff_eq, bne_iff_ne, ne_eq] at hcl
    have hc := str_start_cluster hcl.1.1
    have hsl : strlen (argvAt argv (index0 s)) = p.str.length + 1 := by
      unfold strlen
      rw [hc, hpp]
      rfl
    rw [hidle, restLen_step argv hlt, hsl, ← hm']
    omega
  | false =>
    rw [if_neg (by decide)] at hs
    obtain ⟨hpd, hm'⟩ := hs
    have hpl : pendLen s = p.str.length := by unfold pendLen; rw [hpd]
    have hi : index0 s = m := by
      unfold index0
      rw [hm'] at hm
      rw [if_neg hm, hm']
    rw [hpl, hi]
    omega

theorem first_eoo_within (argc : Nat) (argv : List (List Char)) (optstring : List Char)
    (k : Nat) :
    ∀ s : State, budget argc argv s ≤ k →
      ∃ n, n ≤ k ∧ (getopt argc argv optstring (after argc argv optstring n s)).1 = EOO
        ∧ ∀ j, j < n → (getopt argc argv optstring (after argc argv optstring j s)).1 ≠ EOO := by
  induction k with
  | zero =>
    intro s hs
    refine ⟨0, Nat.le_refl 0, ?_, fun j hj => absurd hj (Nat.not_lt_zero j)⟩
    by_contra hc
    have := budget_decreases argc argv optstring s hc
    omega
  | succ k ih =>
    intro s hs
    by_cases hc : (getopt argc argv optstring s).1 = EOO
    · exact ⟨0, Nat.zero_le _, hc, fun j hj => absurd hj (Nat.not_lt_zero j)⟩
    · have hlt := budget_decreases argc argv optstring s hc
      obtain ⟨n, hn, hend, hbefore⟩ := ih (getopt argc argv optstring s).2 (by omega)
      refine ⟨n + 1, Nat.succ_le_succ hn, hend, ?_⟩
      intro j hj
      cases j with
      | zero => exact hc
      | succ j => exact hbefore j (Nat.lt_of_succ_lt_succ hj)

/-- C13: from the fresh state the parse loop reaches `-1`: there is a number
`n` of calls, at most the total number of characters of `argv[1]`, ...,
`argv[argc - 1]`, such that the first `n` calls return something other than
`-1` and the next call returns `-1`. -/
theorem parse_terminates (argc : Nat) (argv : List (List Char)) (optstring : List Char) :
    ∃ n, n ≤ restLen argc argv 1
      ∧ (getopt argc argv optstring (after argc argv optstring n fresh)).1 = EOO
      ∧ ∀ j, j < n →
          (getopt argc argv optstring (after argc argv optstring j fresh)).1 ≠ EOO :=
  first_eoo_within argc argv optstring (restLen argc argv 1) fresh
    (Nat.le_of_eq (Nat.zero_add (restLen argc argv 1)))

/-! ## Validity of the cursor -/

theorem cursorValid_fresh (argc : Nat) (argv : List (List Char)) :
    CursorValid argc argv fresh := by
  intro p hp
  cases hp

theorem extract_optind_of_tail (argc : Nat) (argv : List (List Char))
    (optstring : List Char) (m : Nat) (p : CharPtr) (h : p.succ.deref ≠ NUL) :
    (extract argc argv optstring m p).2.optind = m := by
  unfold extract
  simp only []
  split
  · rfl
  · split_ifs <;> rfl

theorem cursorValid_extract (argc : Nat) (argv : List (List Char)) (optstring : List Char)
    {m i : Nat} {p : CharPtr} (hi1 : 1 ≤ i) (hi2 : i < argc) (hb : p.base = argvAt argv i)
    (h0 : (argvAt argv i).getD 0 NUL = '-') (hoff : 1 ≤ p.off)
    (hpre : ∀ k, k < p.off → p.base.getD k NUL ≠ NUL) (hp : p.deref ≠ NUL)
    (hm : m = i + 1) :
    CursorValid argc argv (extract argc argv optstring m p).2 := by
  intro q hq
  rcases extract_next argc argv optstring m p with h | h
  · rw [h] at hq; cases hq
  · rw [h] at hq
    cases hq
    refine ⟨i, hi1, hi2, hb, h0, Nat.le_succ_of_le hoff, ?_, ?_⟩
    · intro k hk
      have hk' : k < p.off ∨ k = p.off := Nat.lt_succ_iff_lt_or_eq.mp hk
      rcases hk' with hk' | hk'
      · exact hpre k hk'
      · rw [hk']; exact hp
    · intro hne
      rw [extract_optind_of_tail argc argv optstring m p hne, hm]

theorem cursorValid_step (argc : Nat) (argv : List (List Char)) (optstring : List Char)
    {s : State} (h : CursorValid argc argv s) :
    CursorValid argc argv (getopt argc argv optstring s).2 := by
  rcases enter_spec argc argv s with ⟨t, ht, hidle, hnext, _⟩ | ⟨e, m, p, hent, hs⟩
  · unfold getopt
    rw [ht]
    intro q hq
    rw [show (EOO, t).2 = t from rfl, hnext] at hq
    unfold resetNext at hq
    by_cases hz : s.optind = 0
    · rw [if_pos hz] at hq; cases hq
    · rw [if_neg hz] at hq
      obtain ⟨i, h1, h2, h3, h4, h5, h6, _⟩ := h q hq
      refine ⟨i, h1, h2, h3, h4, h5, h6, fun hne => ?_⟩
      exfalso
      have : pending s = some q := by
        unfold pending
        rw [if_neg hz, hq]
        simp [hne]
      rw [hidle] at this
      cases this
  · rw [getopt_scans optstring hs]
    have hp := scans_deref_ne hs
    unfold Scans at hs
    cases e with
    | true =>
      rw [if_pos rfl] at hs
      obtain ⟨_, hlt, hcl, hm, hpp⟩ := hs
      simp only [isCluster, Bool.and_eq_true, beq_iff_eq, bne_iff_ne, ne_eq] at hcl
      subst hpp
      refine cursorValid_extract argc argv optstring (index0_pos s) hlt rfl hcl.1.1
        (Nat.le_refl 1) ?_ hp hm
      intro k hk
      have hk0 : k = 0 := by
        have : k < 1 := hk
        omega
      subst hk0
      show (argvAt argv (index0 s)).getD 0 NUL ≠ NUL
      rw [hcl.1.1]
      exact fun e => NUL_ne_dash e.symm
    | false =>
      rw [if_neg (by decide)] at hs
      obtain ⟨hpd, hm⟩ := hs
      obtain ⟨i, h1, h2, h3, h4, h5, h6, h7⟩ := h p (pending_eq_some hpd).2.1
      exact cursorValid_extract argc argv optstring h1 h2 h3 h4 h5 h6 hp
        (hm.trans (h7 hp))

theorem cursorValid_after (argc : Nat) (argv : List (List Char)) (optstring : List Char)
    (n : Nat) : CursorValid argc argv (after argc argv optstring n fresh) := by
  induction n with
  | zero => exact cursorValid_fresh argc argv
  | succ n ih =>
    rw [after_succ_last]
    exact cursorValid_step argc argv optstring ih

/-- In a state with a valid cursor, the character a call extracts lies in the
element `argv[m - 1]`, `m` being `optind` once the element is consumed. -/
theorem scans_valid {argc : Nat} {argv : List (List Char)} {s : State}
    (h : CursorValid argc argv s) {e : Bool} {m : Nat} {p : CharPtr}
    (hs : Scans argc argv s e m p) :
    1 ≤ m - 1 ∧ m - 1 < argc ∧ p.base = argvAt argv (m - 1)
      ∧ (argvAt argv (m - 1)).getD 0 NUL = '-' ∧ 1 ≤ p.off
      ∧ (∀ k, k ≤ p.off → p.base.getD k NUL ≠ NUL) := by
  have hp := scans_deref_ne hs
  unfold Scans at hs
  cases e with
  | true =>
    rw [if_pos rfl] at hs
    obtain ⟨_, hlt, hcl, hm, hpp⟩ := hs
    simp only [isCluster, Bool.and_eq_true, beq_iff_eq, bne_iff_ne, ne_eq] at hcl
    subst hpp
    subst hm
    refine ⟨index0_pos s, hlt, rfl, hcl.1.1, Nat.le_refl 1, ?_⟩
    intro k hk
    have hk' : k = 0 ∨ k = 1 := by
      have : k ≤ 1 := hk
      omega
    rcases hk' with hk' | hk'
    · subst hk'
      show (argvAt argv (index0 s)).getD 0 NUL ≠ NUL
      rw [hcl.1.1]
      exact fun e => NUL_ne_dash e.symm
    · subst hk'
      exact hcl.1.2
  | false =>
    rw [if_neg (by decide)] at hs
    obtain ⟨hpd, hm⟩ := hs
    obtain ⟨i, h1, h2, h3, h4, h5, h6, h7⟩ := h p (pending_eq_some hpd).2.1
    have hmi : m - 1 = i := by rw [hm, h7 hp]; rfl
    rw [hmi]
    refine ⟨h1, h2, h3, h4, h5, ?_⟩
    intro k hk
    rcases Nat.lt_or_eq_of_le hk with hk' | hk'
    · exact h6 k hk'
    · rw [hk']; exact hp

theorem lt_strlen_of_prefix (a : List Char) (n : Nat)
    (h : ∀ k, k ≤ n → a.getD k NUL ≠ NUL) : n < strlen a := by
  induction a generalizing n with
  | nil =>
    exfalso
    exact h 0 (Nat.zero_le n) rfl
  | cons x xs ih =>
    have hx : x ≠ NUL := h 0 (Nat.zero_le n)
    unfold strlen
    rw [cstr_cons, if_neg hx, List.length_cons]
    cases n with
    | zero => exact Nat.succ_pos _
    | succ n =>
      apply Nat.succ_lt_succ
      apply ih
      intro k hk
      exact h (k + 1) (Nat.succ_le_succ hk)

theorem operand_congr {argc : Nat} {argv argv' : List (List Char)}
    (h : ∀ j, j < argc → argvAt argv' j = argvAt argv j) (i : Nat) :
    operand argc argv' i = operand argc argv i := by
  unfold operand
  by_cases hi : i < argc
  · rw [if_pos hi, if_pos hi, h i hi]
  · rw [if_neg hi, if_neg hi]

theorem newElement_congr {argc : Nat} {argv argv' : List (List Char)}
    (h : ∀ j, j < argc → argvAt argv' j = argvAt argv j) (s : State)
    (nx : Option CharPtr) :
    newElement argc argv' s.optind nx = newElement argc argv s.optind nx := by
  rw [newElement_eq, newElement_eq]
  by_cases hi : index0 s < argc
  · rw [h _ hi, operand_congr h, operand_congr h]
  · have hge : index0 s ≥ argc := Nat.le_of_not_lt hi
    rw [if_pos (Or.inl hge), if_pos (Or.inl hge), operand_congr h]

theorem extract_congr {argc : Nat} {argv argv' : List (List Char)}
    (h : ∀ j, j < argc → argvAt argv' j = argvAt argv j) (optstring : List Char)
    (m : Nat) (p : CharPtr) :
    extract argc argv' optstring m p = extract argc argv optstring m p := by
  unfold extract
  by_cases hm : m < argc
  · rw [h m hm]
  · simp only [hm, if_false]

/-- The elements of `argv` at or past `argc` have no part in a call. -/
theorem getopt_congr {argc : Nat} {argv argv' : List (List Char)}
    (h : ∀ j, j < argc → argvAt argv' j = argvAt argv j) (optstring : List Char)
    (s : State) :
    getopt argc argv' optstring s = getopt argc argv optstring s := by
  have he : enter argc argv' s = enter argc argv s := by
    unfold enter
    simp only [newElement_congr h]
  unfold getopt
  rw [he]
  cases enter argc argv s with
  | finished t => rfl
  | cluster m p => exact extract_congr h optstring m p

/-! ## Errors and safety in a parse -/

/-- C14: in a parse started from the fresh state, when a call extracts the
letter at `p` and returns `'?'` because the letter is unknown or because its
required argument is missing, then with `optind` as the call leaves it,
`1 <= optind - 1 < argc`, the element `argv[optind - 1]` is the one `p` points
into, it begins with `-`, and it holds the offending letter at the offset of
`p`, which is at least one and is the position just before `next`. -/
theorem offending_element (argc : Nat) (argv : List (List Char)) (optstring : List Char)
    (n : Nat) (e : Bool) (m : Nat) (p : CharPtr) (pre post : List Char)
    (hscan : Scans argc argv (after argc argv optstring n fresh) e m p)
    (hbad : (p.deref ∉ cstr optstring ∨ p.deref = ':')
      ∨ (FirstAt optstring p.deref pre post ∧ p.deref ≠ ':' ∧ post.head? = some ':'
          ∧ p.succ.deref = NUL ∧ argc ≤ m)) :
    (getopt argc argv optstring (after argc argv optstring n fresh)).1 = UNKNOWN
    ∧ 1 ≤ (getopt argc argv optstring (after argc argv optstring n fresh)).2.optind - 1
    ∧ (getopt argc argv optstring (after argc argv optstring n fresh)).2.optind - 1 < argc
    ∧ p.base = argvAt argv
        ((getopt argc argv optstring (after argc argv optstring n fresh)).2.optind - 1)
    ∧ (argvAt argv
        ((getopt argc argv optstring (after argc argv optstring n fresh)).2.optind - 1)).getD
          0 NUL = '-'
    ∧ 1 ≤ p.off
    ∧ (argvAt argv
        ((getopt argc argv optstring (after argc argv optstring n fresh)).2.optind - 1)).getD
          p.off NUL = p.deref
    ∧ (getopt argc argv optstring (after argc argv optstring n fresh)).2.next
        = some p.succ := by
  have hg : getopt argc argv optstring (after argc argv optstring n fresh)
      = (UNKNOWN, { optind := m, optarg := none, next := some p.succ }) := by
    rw [getopt_scans optstring hscan]
    rcases hbad with h | ⟨hocc, hc, hpost, hlast, hge⟩
    · exact extract_unknown argc argv optstring m p (scans_deref_ne hscan) h
    · rw [extract_arg argc argv m p hocc hc hpost, if_neg (not_not.mpr hlast),
        if_neg (Nat.not_lt.mpr hge)]
  obtain ⟨h1, h2, h3, h4, h5, _⟩ :=
    scans_valid (cursorValid_after argc argv optstring n) hscan
  rw [hg]
  refine ⟨rfl, h1, h2, h3, h4, h5, ?_, rfl⟩
  show (argvAt argv (m - 1)).getD p.off NUL = p.deref
  rw [← h3]
  rfl

/-- Witness for C14: the second call of the parse of `["p", "-az"]` with
`"aBn:"` meets the unknown letter `z`. -/
theorem offending_element_witness :
    Scans 2 ["p".toList, "-az".toList]
        (after 2 ["p".toList, "-az".toList] "aBn:".toList 1 fresh) false 2
        { base := "-az".toList, off := 2 }
    ∧ 'z' ∉ cstr "aBn:".toList
    ∧ (getopt 2 ["p".toList, "-az".toList] "aBn:".toList
        (after 2 ["p".toList, "-az".toList] "aBn:".toList 1 fresh)).1 = 63
    ∧ (getopt 2 ["p".toList, "-az".toList] "aBn:".toList
        (after 2 ["p".toList, "-az".toList] "aBn:".toList 1 fresh)).2.optind - 1 < 2
    ∧ "-az".toList = argvAt ["p".toList, "-az".toList]
        ((getopt 2 ["p".toList, "-az".toList] "aBn:".toList
          (after 2 ["p".toList, "-az".toList] "aBn:".toList 1 fresh)).2.optind - 1) :=
  have h := offending_element 2 ["p".toList, "-az".toList] "aBn:".toList 1 false 2
    { base := "-az".toList, off := 2 } [] [] (by decide) (Or.inl (Or.inl (by decide)))
  ⟨by decide, by decide, h.1, h.2.2.1, h.2.2.2.1⟩

/-- C20: in every state reached from the fresh state by calls of `getopt`,
when a call extracts a character, the cursor points into an element `argv[i]`
with `1 <= i < argc` (an element of the vector when `argc` does not exceed its
length) that begins with `-`, at an offset that is at least one and less than
the length of the element, so that the character is not the terminator and not
the leading `-` and the character after it is still within the string; and the
elements of `argv` at or past `argc` have no part in any call. -/
theorem cursor_validity (argc : Nat) (argv : List (List Char)) (optstring : List Char) :
    (∀ (n : Nat) (e : Bool) (m : Nat) (p : CharPtr),
      Scans argc argv (after argc argv optstring n fresh) e m p →
      ∃ i, 1 ≤ i ∧ i < argc ∧ (argc ≤ argv.length → i < argv.length)
        ∧ p.base = argvAt argv i ∧ (argvAt argv i).getD 0 NUL = '-'
        ∧ 1 ≤ p.off ∧ p.off < strlen (argvAt argv i) ∧ p.deref ≠ NUL)
    ∧ (∀ (argv' : List (List Char)) (s : State),
        (∀ j, j < argc → argvAt argv' j = argvAt argv j) →
        getopt argc argv' optstring s = getopt argc argv optstring s) := by
  constructor
  · intro n e m p hscan
    obtain ⟨h1, h2, h3, h4, h5, h6⟩ :=
      scans_valid (cursorValid_after argc argv optstring n) hscan
    refine ⟨m - 1, h1, h2, fun hle => Nat.lt_of_lt_of_le h2 hle, h3, h4, h5, ?_,
      scans_deref_ne hscan⟩
    rw [← h3]
    exact lt_strlen_of_prefix p.base p.off h6
  · intro argv' s h
    exact getopt_congr h optstring s

/-- Witness for C20: the second call of the parse of `["p", "-aB"]` extracts
at offset `2` of `argv[1]`. -/
theorem cursor_validity_witness :
    Scans 2 ["p".toList, "-aB".toList]
        (after 2 ["p".toList, "-aB".toList] "aBn:".toList 1 fresh) false 2
        { base := "-aB".toList, off := 2 }
    ∧ ∃ i, 1 ≤ i ∧ i < 2 ∧ "-aB".toList = argvAt ["p".toList, "-aB".toList] i
        ∧ 2 < strlen (argvAt ["p".toList, "-aB".toList] i) :=
  ⟨by decide,
   ((cursor_validity 2 ["p".toList, "-aB".toList] "aBn:".toList).1 1 false 2
      { base := "-aB".toList, off := 2 } (by decide)).elim
     (fun i hi => ⟨i, hi.1, hi.2.1, hi.2.2.2.1, hi.2.2.2.2.2.2.1⟩)⟩

/-! ## Colons in the option string -/

/-- C15: when the first occurrence of the extracted letter `c` in the option
string is followed by `"::"`, `getopt` returns `c` (converted to `int`,
`charInt c`) with `optarg` at the attached tail when a character remains after
`c`, else returns `c` with
`optarg` at the next element `argv[optind]`, advancing `optind`, when
`optind < argc`, else returns `'?'`; and this is what it does with the option
string in which a single `:` follows `c`. -/
theorem double_colon (argc : Nat) (argv : List (List Char)) (optstring : List Char)
    (s : State) (entered : Bool) (m : Nat) (p : CharPtr) (pre rest : List Char)
    (hscan : Scans argc argv s entered m p)
    (hocc : FirstAt optstring p.deref pre (':' :: ':' :: rest))
    (hc : p.deref ≠ ':') :
    getopt argc argv optstring s =
      (if p.succ.deref ≠ NUL then
        (charInt p.deref, { optind := m, optarg := some p.succ, next := none })
      else if m < argc then
        (charInt p.deref, { optind := m + 1,
                                  optarg := some { base := argvAt argv m, off := 0 },
                                  next := some p.succ })
      else
        (UNKNOWN, { optind := m, optarg := none, next := some p.succ }))
    ∧ getopt argc argv optstring s
        = getopt argc argv (pre ++ p.deref :: ':' :: rest) s := by
  have h1 := extract_arg argc argv m p hocc hc rfl
  have hocc' : FirstAt (pre ++ p.deref :: ':' :: rest) p.deref pre (':' :: rest) :=
    ⟨rfl, hocc.2.1, hocc.2.2⟩
  have h2 := extract_arg argc argv m p hocc' hc rfl
  rw [getopt_scans optstring hscan, getopt_scans _ hscan, h1, h2]
  exact ⟨rfl, rfl⟩

/-- Witness for C15: the first call of the parse of `["p", "-n", "42"]` with
`"n::"` takes `"42"` as the argument. -/
theorem double_colon_witness :
    Scans 3 ["p".toList, "-n".toList, "42".toList] fresh true 2
        { base := "-n".toList, off := 1 }
    ∧ FirstAt "n::".toList 'n' [] [':', ':']
    ∧ getopt 3 ["p".toList, "-n".toList, "42".toList] "n::".toList fresh
        = (('n'.toNat : Int),
           { optind := 3, optarg := some { base := "42".toList, off := 0 },
             next := some { base := "-n".toList, off := 2 } }) :=
  ⟨by decide, by decide,
   (double_colon 3 ["p".toList, "-n".toList, "42".toList] "n::".toList fresh true 2
     { base := "-n".toList, off := 1 } [] [] (by decide) (by decide) (by decide)).1⟩

theorem strchrFrom_shift (s : List Char) (c : Char) (k : Nat) :
    strchrFrom s (k + 1) c = (strchrFrom s k c).map (fun j => j + 1) := by
  induction s generalizing k with
  | nil =>
    unfold strchrFrom
    split_ifs <;> rfl
  | cons x xs ih =>
    unfold strchrFrom
    split_ifs
    · rfl
    · rfl
    · exact ih (k + 1)

theorem extract_leading_colon (argc : Nat) (argv : List (List Char)) (rest : List Char)
    (m : Nat) (p : CharPtr) :
    extract argc argv (':' :: rest) m p = extract argc argv rest m p := by
  have hcn : ¬ ':' = NUL := by decide
  unfold extract strchr
  simp only []
  by_cases hc : p.deref = ':'
  · have h0 : strchrFrom (':' :: rest) 0 p.deref = some 0 := by
      rw [hc]
      unfold strchrFrom
      rw [if_pos rfl]
    rw [h0]
    cases strchrFrom rest 0 p.deref with
    | none => simp [hc]
    | some k => simp [hc]
  · have hc' : ¬ ':' = p.deref := fun e => hc e.symm
    have h0 : strchrFrom (':' :: rest) 0 p.deref
        = (strchrFrom rest 0 p.deref).map (fun j => j + 1) := by
      rw [← strchrFrom_shift]
      conv_lhs => unfold strchrFrom
      rw [if_neg hc', if_neg hcn]
    rw [h0]
    cases strchrFrom rest 0 p.deref with
    | none => rfl
    | some k =>
      have hd : (CharPtr.succ { base := ':' :: rest, off := k + 1 }).deref
          = (CharPtr.succ { base := rest, off := k }).deref := rfl
      simp only [Option.map_some', hd]

/-- C16, as stated, fails: with the option string `":a"` and
`argv = ["p", "-a"]` the first call extracts `a` and returns `'a'`, not
`'?'`. -/
theorem leading_colon_letter_is_recognized :
    Scans 2 ["p".toList, "-a".toList] fresh true 2 { base := "-a".toList, off := 1 }
    ∧ (getopt 2 ["p".toList, "-a".toList] ":a".toList fresh).1 = ('a'.toNat : Int)
    ∧ (getopt 2 ["p".toList, "-a".toList] ":a".toList fresh).1 ≠ UNKNOWN := by
  decide

/-- C16, amended: with an option string whose first character is `:`, every
call of `getopt` returns what it returns, and leaves the state it leaves, with
the option string stripped of that leading `:`; a call that extracts `:`
returns `'?'`, and a letter that occurs later in the option string is
recognized. -/
theorem leading_colon (argc : Nat) (argv : List (List Char)) (rest : List Char)
    (s : State) :
    getopt argc argv (':' :: rest) s = getopt argc argv rest s
    ∧ ∀ (e : Bool) (m : Nat) (p : CharPtr), Scans argc argv s e m p → p.deref = ':' →
        (getopt argc argv (':' :: rest) s).1 = UNKNOWN := by
  constructor
  · unfold getopt
    cases enter argc argv s with
    | finished t => rfl
    | cluster m p => exact extract_leading_colon argc argv rest m p
  · intro e m p hscan hp
    rw [getopt_scans _ hscan,
      extract_unknown argc argv _ m p (scans_deref_ne hscan) (Or.inr hp)]

/-- Witness for C16: the parse of `["p", "-:"]` with `":a"` meets `:` and
returns `'?'`. -/
theorem leading_colon_witness :
    Scans 2 ["p".toList, "-:".toList] fresh true 2 { base := "-:".toList, off := 1 }
    ∧ (getopt 2 ["p".toList, "-:".toList] ":a".toList fresh).1 = 63 :=
  ⟨by decide,
   (leading_colon 2 ["p".toList, "-:".toList] "a".toList fresh).2 true 2
     { base := "-:".toList, off := 1 } (by decide) (by decide)⟩

/-! ## Progress of the cursors -/

theorem index0_bounds (s : State) :
    s.optind ≤ index0 s ∧ index0 s ≤ s.optind + 1 ∧ (s.optind ≠ 0 → index0 s = s.optind) := by
  unfold index0
  split_ifs with h
  · omega
  · exact ⟨Nat.le_refl _, Nat.le_succ _, fun _ => rfl⟩

/-- C17, as stated, fails on the first call: in the parse of
`["p", "-n", "42", "rest"]` with `"aBn:"` the first call skips `argv[0]`,
consumes `"-n"` and takes `"42"`, raising `optind` from `0` to `3`. -/
theorem first_call_may_advance_by_three :
    fresh.optind = 0
    ∧ (getopt 4 ["p".toList, "-n".toList, "42".toList, "rest".toList] "aBn:".toList
        fresh).1 = ('n'.toNat : Int)
    ∧ (getopt 4 ["p".toList, "-n".toList, "42".toList, "rest".toList] "aBn:".toList
        fresh).2.optind = 3
    ∧ ¬ (getopt 4 ["p".toList, "-n".toList, "42".toList, "rest".toList] "aBn:".toList
        fresh).2.optind ≤ fresh.optind + 2 := by
  decide

/-- C17, amended: for every argv, option string and state, `optind` after a
call of `getopt` is at least its value before the call; a call made with
`optind` other than `0` raises it by at most 2, and a call made with
`optind == 0` raises it by at most 3. -/
theorem monotone_cursor (argc : Nat) (argv : List (List Char)) (optstring : List Char)
    (s : State) :
    s.optind ≤ (getopt argc argv optstring s).2.optind
    ∧ (getopt argc argv optstring s).2.optind ≤ s.optind + 3
    ∧ (s.optind ≠ 0 → (getopt argc argv optstring s).2.optind ≤ s.optind + 2) := by
  obtain ⟨hi1, hi2, hi3⟩ := index0_bounds s
  rcases enter_spec argc argv s with ⟨t, ht, _, _, hto⟩ | ⟨e, m, p, _, hs⟩
  · have hg : (getopt argc argv optstring s).2 = t := by
      unfold getopt
      rw [ht]
    rw [hg]
    refine ⟨?_, ?_, fun h0 => ?_⟩
    · rcases hto with h | h <;> omega
    · rcases hto with h | h <;> omega
    · have := hi3 h0
      rcases hto with h | h <;> omega
  · rw [getopt_scans optstring hs]
    have hm := scans_index hs
    have hm1 : s.optind ≤ m ∧ m ≤ s.optind + 2 ∧ (s.optind ≠ 0 → m ≤ s.optind + 1) := by
      cases e with
      | true =>
        rw [if_pos rfl] at hm
        refine ⟨by omega, by omega, fun h0 => ?_⟩
        have := hi3 h0
        omega
      | false =>
        rw [if_neg (by decide)] at hm
        refine ⟨by omega, by omega, fun _ => by omega⟩
    obtain ⟨ha, hb, hc⟩ := hm1
    refine ⟨?_, ?_, fun h0 => ?_⟩
    · rcases extract_optind argc argv optstring m p with h | h <;> omega
    · rcases extract_optind argc argv optstring m p with h | h <;> omega
    · have := hc h0
      rcases extract_optind argc argv optstring m p with h | h <;> omega

/-- Witness for C17: the call that enters `"-n"` at `optind = 2` and takes
`"42"` raises `optind` by two. -/
theorem monotone_cursor_witness :
    (getopt 4 ["p".toList, "-a".toList, "-n".toList, "42".toList] "aBn:".toList
      { optind := 2, optarg := none, next := some { base := "-a".toList, off := 2 } }).2.optind
      = 4
    ∧ (getopt 4 ["p".toList, "-a".toList, "-n".toList, "42".toList] "aBn:".toList
      { optind := 2, optarg := none, next := some { base := "-a".toList, off := 2 } }).2.optind
      ≤ 2 + 2 :=
  ⟨by decide,
   (monotone_cursor 4 ["p".toList, "-a".toList, "-n".toList, "42".toList] "aBn:".toList
     { optind := 2, optarg := none,
       next := some { base := "-a".toList, off := 2 } }).2.2 (by decide)⟩

theorem extract_progress (argc : Nat) (argv : List (List Char)) (optstring : List Char)
    (m : Nat) (p : CharPtr) :
    (extract argc argv optstring m p).2.next = some p.succ
      ∨ ((extract argc argv optstring m p).2.next = none
          ∧ (extract argc argv optstring m p).2.optarg = some p.succ
          ∧ p.succ.deref ≠ NUL) := by
  unfold extract
  simp only []
  split
  · exact Or.inl rfl
  · split_ifs with h1 h2 h3 h4
    · exact Or.inl rfl
    · exact Or.inr ⟨rfl, rfl, h3⟩
    · exact Or.inl rfl
    · exact Or.inl rfl
    · exact Or.inl rfl

/-- C19, as stated, fails for an attached argument taken from a pending
cluster: in the parse of `["p", "-an42"]` with `"an:"` the second call returns
`'n'`, does not change `optind`, and does not move the cursor to the next
character: it sets it to `NULL`. -/
theorem attached_argument_clears_the_cursor :
    (after 2 ["p".toList, "-an42".toList] "an:".toList 1 fresh).next
      = some { base := "-an42".toList, off := 2 }
    ∧ (getopt 2 ["p".toList, "-an42".toList] "an:".toList
        (after 2 ["p".toList, "-an42".toList] "an:".toList 1 fresh)).1 = ('n'.toNat : Int)
    ∧ (getopt 2 ["p".toList, "-an42".toList] "an:".toList
        (after 2 ["p".toList, "-an42".toList] "an:".toList 1 fresh)).2.optind
        = (after 2 ["p".toList, "-an42".toList] "an:".toList 1 fresh).optind
    ∧ (getopt 2 ["p".toList, "-an42".toList] "an:".toList
        (after 2 ["p".toList, "-an42".toList] "an:".toList 1 fresh)).2.next = none
    ∧ (getopt 2 ["p".toList, "-an42".toList] "an:".toList
        (after 2 ["p".toList, "-an42".toList] "an:".toList 1 fresh)).2.next
        ≠ some { base := "-an42".toList, off := 3 } := by
  decide

/-- C19, amended: every call of `getopt` that does not return `-1` either
strictly increases `optind`, or advances the pending cluster cursor by one
character within its element, or, taking an attached argument from a pending
cluster, sets the cursor to `NULL` and `optarg` to the non-empty rest of the
cluster. -/
theorem per_call_progress (argc : Nat) (argv : List (List Char)) (optstring : List Char)
    (s : State) (h : (getopt argc argv optstring s).1 ≠ EOO) :
    s.optind < (getopt argc argv optstring s).2.optind
    ∨ (∃ p, pending s = some p ∧ (getopt argc argv optstring s).2.next = some p.succ)
    ∨ (∃ p, pending s = some p ∧ (getopt argc argv optstring s).2.next = none
        ∧ (getopt argc argv optstring s).2.optarg = some p.succ ∧ p.succ.deref ≠ NUL) := by
  obtain ⟨e, m, p, hs⟩ := scans_of_ne_eoo h
  rw [getopt_scans optstring hs]
  have hm := scans_index hs
  cases e with
  | true =>
    left
    rw [if_pos rfl] at hm
    have := (index0_bounds s).1
    rcases extract_optind argc argv optstring m p with h' | h' <;> omega
  | false =>
    right
    unfold Scans at hs
    rw [if_neg (by decide)] at hs
    rcases extract_progress argc argv optstring m p with h' | h'
    · exact Or.inl ⟨p, hs.1, h'⟩
    · exact Or.inr ⟨p, hs.1, h'⟩

/-- Witness for C19: the second call of the parse of `["p", "-aB"]` with
`"aBn:"` moves the cursor from `B` to the terminator. -/
theorem per_call_progress_witness :
    (getopt 2 ["p".toList, "-aB".toList] "aBn:".toList
      { optind := 2, optarg := none, next := some { base := "-aB".toList, off := 2 } }).1
      ≠ -1
    ∧ (2 < (getopt 2 ["p".toList, "-aB".toList] "aBn:".toList
          { optind := 2, optarg := none,
            next := some { base := "-aB".toList, off := 2 } }).2.optind
      ∨ (∃ p, pending { optind := 2, optarg := none,
                        next := some { base := "-aB".toList, off := 2 } } = some p
          ∧ (getopt 2 ["p".toList, "-aB".toList] "aBn:".toList
              { optind := 2, optarg := none,
                next := some { base := "-aB".toList, off := 2 } }).2.next = some p.succ)
      ∨ (∃ p, pending { optind := 2, optarg := none,
                        next := some { base := "-aB".toList, off := 2 } } = some p
          ∧ (getopt 2 ["p".toList, "-aB".toList] "aBn:".toList
              { optind := 2, optarg := none,
                next := some { base := "-aB".toList, off := 2 } }).2.next = none
          ∧ (getopt 2 ["p".toList, "-aB".toList] "aBn:".toList
              { optind := 2, optarg := none,
                next := some { base := "-aB".toList, off := 2 } }).2.optarg = some p.succ
          ∧ p.succ.deref ≠ NUL)) :=
  ⟨by decide,
   per_call_progress 2 ["p".toList, "-aB".toList] "aBn:".toList
     { optind := 2, optarg := none, next := some { base := "-aB".toList, off := 2 } }
     (by decide)⟩

/-! ## The left-to-right reference for flag-only input -/

theorem isCluster_iff_optionCluster (a : List Char) :
    isCluster a = true ↔ IsOptionCluster a := by
  rw [isCluster_iff]
  unfold IsOptionCluster DashElement strlen
  constructor
  · rintro ⟨h0, h1, h2⟩
    refine ⟨⟨h0, ?_⟩, h2⟩
    cases hc : cstr a with
    | nil => rw [hc] at h0; cases h0
    | cons x xs =>
      cases xs with
      | nil =>
        rw [hc] at h0 h1
        simp only [List.head?_cons, Option.some.injEq] at h0
        subst h0
        exact absurd rfl h1
      | cons y ys => simp
  · rintro ⟨⟨h0, h1⟩, h2⟩
    refine ⟨h0, fun e => ?_, h2⟩
    rw [e] at h1
    simp at h1

theorem mem_cstr_ne_nul {s : List Char} {c : Char} (h : c ∈ cstr s) : c ≠ NUL := by
  have := (List.mem_takeWhile_imp h)
  simpa using this

theorem mem_cstr_split (s : List Char) (c : Char) (h : c ∈ cstr s) :
    ∃ pre post, s = pre ++ c :: post ∧ c ∉ pre ∧ NUL ∉ pre
      ∧ cstr s = pre ++ c :: cstr post := by
  have hc0 := mem_cstr_ne_nul h
  induction s with
  | nil => rw [cstr_nil] at h; cases h
  | cons x xs ih =>
    rw [cstr_cons] at h
    by_cases hx : x = NUL
    · rw [if_pos hx] at h; cases h
    · rw [if_neg hx] at h
      by_cases hxc : x = c
      · subst hxc
        refine ⟨[], xs, rfl, List.not_mem_nil _, List.not_mem_nil _, ?_⟩
        rw [cstr_cons, if_neg hx]
        rfl
      · have hmem : c ∈ cstr xs := by
          rcases List.mem_cons.mp h with h' | h'
          · exact absurd h'.symm hxc
          · exact h'
        obtain ⟨pre, post, h1, h2, h3, h4⟩ := ih hmem
        refine ⟨x :: pre, post, by rw [h1]; rfl, ?_, ?_, ?_⟩
        · intro hm
          rcases List.mem_cons.mp hm with h' | h'
          · exact hxc h'.symm
          · exact h2 h'
        · intro hm
          rcases List.mem_cons.mp hm with h' | h'
          · exact hx h'.symm
          · exact h3 h'
        · rw [cstr_cons, if_neg hx, h4]
          rfl

/-- With no `:` in the option string, a call that extracts a character returns
its reference value and only moves the cursor past it. -/
theorem getopt_noarg {argc : Nat} {argv : List (List Char)} {optstring : List Char}
    (hcolon : ':' ∉ cstr optstring) {s : State} {e : Bool} {m : Nat} {p : CharPtr}
    (hs : Scans argc argv s e m p) :
    getopt argc argv optstring s
      = (flagValue optstring p.deref, { optind := m, optarg := none, next := some p.succ }) := by
  rw [getopt_scans optstring hs]
  unfold flagValue
  by_cases hmem : p.deref ∈ cstr optstring
  · rw [if_pos hmem]
    obtain ⟨pre, post, h1, h2, h3, h4⟩ := mem_cstr_split optstring p.deref hmem
    have hc : p.deref ≠ ':' := fun e => hcolon (e ▸ hmem)
    have hpost : post.head? ≠ some ':' := by
      intro hh
      apply hcolon
      rw [h4]
      cases post with
      | nil => cases hh
      | cons y ys =>
        simp only [List.head?_cons, Option.some.injEq] at hh
        subst hh
        have hcn : ¬ ':' = NUL := by decide
        rw [cstr_cons, if_neg hcn]
        simp
    exact extract_flag argc argv m p ⟨h1, h2, h3⟩ hc hpost
  · rw [if_neg hmem]
    exact extract_unknown argc argv optstring m p (scans_deref_ne hs) (Or.inl hmem)

/-- The calls that drain a pending cluster. -/
theorem drain_pending {argc : Nat} {argv : List (List Char)} {optstring : List Char}
    (hcolon : ':' ∉ cstr optstring) (i : Nat) (hi : i ≠ 0) :
    ∀ (R : List Char) (oa : Option CharPtr) (p : CharPtr), p.str = R →
      returns argc argv optstring R.length { optind := i, optarg := oa, next := some p }
        = R.map (flagValue optstring)
      ∧ ∃ oa' q, after argc argv optstring R.length
            { optind := i, optarg := oa, next := some p }
          = { optind := i, optarg := oa', next := some q } ∧ q.deref = NUL := by
  intro R
  induction R with
  | nil =>
    intro oa p hp
    refine ⟨rfl, oa, p, rfl, ?_⟩
    by_contra hne
    exact (str_ne_nil_iff p).mpr hne hp
  | cons c R ih =>
    intro oa p hp
    have hne : p.deref ≠ NUL := (str_ne_nil_iff p).mp (by rw [hp]; exact List.cons_ne_nil _ _)
    rw [str_succ hne] at hp
    have hc : p.deref = c := (List.cons.inj hp).1
    have hR : p.succ.str = R := (List.cons.inj hp).2
    have hs : Scans argc argv { optind := i, optarg := oa, next := some p } false i p := by
      unfold Scans
      rw [if_neg (by decide)]
      exact ⟨pending_mk_some i oa p hi hne, rfl⟩
    have hg := getopt_noarg hcolon hs
    obtain ⟨ih1, ih2⟩ := ih none p.succ hR
    constructor
    · simp only [List.length_cons, returns, List.map_cons]
      rw [hg, hc]
      simp only []
      rw [ih1]
    · simp only [List.length_cons, after]
      rw [hg]
      exact ih2

/-- The calls that drain the cluster a call enters or continues. -/
theorem drain_scans {argc : Nat} {argv : List (List Char)} {optstring : List Char}
    (hcolon : ':' ∉ cstr optstring) {s : State} {e : Bool} {m : Nat} {p : CharPtr}
    (hs : Scans argc argv s e m p) :
    returns argc argv optstring p.str.length s = p.str.map (flagValue optstring)
    ∧ ∃ oa' q, after argc argv optstring p.str.length s
          = { optind := m, optarg := oa', next := some q } ∧ q.deref = NUL := by
  have hne := scans_deref_ne hs
  have hg := getopt_noarg hcolon hs
  obtain ⟨h1, h2⟩ := @drain_pending argc argv optstring hcolon m (scans_pos hs)
    p.succ.str none p.succ rfl
  rw [str_succ hne]
  constructor
  · simp only [List.length_cons, returns, List.map_cons]
    rw [hg]
    simp only []
    rw [h1]
  · simp only [List.length_cons, after]
    rw [hg]
    exact h2

theorem clusterChars_eq {a : List Char} (h : isCluster a = true) :
    clusterChars a = CharPtr.str { base := a, off := 1 } := by
  simp only [isCluster, Bool.and_eq_true, beq_iff_eq, bne_iff_ne, ne_eq] at h
  unfold clusterChars
  rw [str_start_cluster h.1.1]
  rfl

/-- The calls that drain `d` successive option clusters. -/
theorem drain_elements {argc : Nat} {argv : List (List Char)} {optstring : List Char}
    (hcolon : ':' ∉ cstr optstring) (d : Nat) :
    ∀ (i : Nat) (s : State), pending s = none → index0 s = i →
      (∀ j, i ≤ j → j < i + d → j < argc ∧ isCluster (argvAt argv j) = true) →
      returns argc argv optstring (expectedFrom argv optstring i d).length s
        = expectedFrom argv optstring i d
      ∧ pending (after argc argv optstring (expectedFrom argv optstring i d).length s) = none
      ∧ index0 (after argc argv optstring (expectedFrom argv optstring i d).length s)
          = i + d := by
  induction d with
  | zero =>
    intro i s hp hi _
    exact ⟨rfl, hp, hi⟩
  | succ d ih =>
    intro i s hp hi hall
    obtain ⟨hlt, hcl⟩ := hall i (Nat.le_refl i) (by omega)
    have hs : Scans argc argv s true (i + 1) { base := argvAt argv i, off := 1 } := by
      unfold Scans
      rw [if_pos rfl, hi]
      exact ⟨hp, hlt, hcl, rfl, rfl⟩
    obtain ⟨h1, oa', q, h2, h3⟩ := drain_scans hcolon hs
    rw [← clusterChars_eq hcl] at h1 h2
    have hp1 : pending (after argc argv optstring (clusterChars (argvAt argv i)).length s)
        = none := by
      rw [h2]
      exact pending_mk_end _ _ _ h3
    have hi1 : index0 (after argc argv optstring (clusterChars (argvAt argv i)).length s)
        = i + 1 := by
      rw [h2]
      exact index0_mk _ _ _ (Nat.succ_ne_zero i)
    obtain ⟨k1, k2, k3⟩ := ih (i + 1) _ hp1 hi1
      (fun j hj1 hj2 => hall j (by omega) (by omega))
    have hlen : (expectedFrom argv optstring i (d + 1)).length
        = (clusterChars (argvAt argv i)).length
          + (expectedFrom argv optstring (i + 1) d).length := by
      simp only [expectedFrom, List.length_append, List.length_map]
    rw [hlen, returns_add, after_add, h1, k1]
    refine ⟨rfl, k2, ?_⟩
    rw [k3]
    omega

/-- C18, as stated, fails when an element before `m` is `"--"`: with
`argv = ["p", "--", "-a"]` and the option string `"a"`, both `argv[1]` and
`argv[2]` begin with `-` and have length two, so `m = argc = 3` and the
reference sequence is `'?'`, `'a'`, `-1`; but the first call returns `-1` and
leaves `optind = 2`.  It also fails when the byte `0xFF` is an option letter:
when `argv[1]` is made of `-`, the byte `0xFF` and `a`, and the option string of
the byte `0xFF` and `a`, the reference has two letters before the final `-1`,
but the first call already returns `-1`, for the letter `0xFF`. -/
theorem sentinel_is_not_scanned_as_a_cluster :
    DashElement (argvAt ["p".toList, "--".toList, "-a".toList] 1)
    ∧ DashElement (argvAt ["p".toList, "--".toList, "-a".toList] 2)
    ∧ expectedFrom ["p".toList, "--".toList, "-a".toList] "a".toList 1 2 = [63, 97]
    ∧ returns 3 ["p".toList, "--".toList, "-a".toList] "a".toList 1 fresh = [-1]
    ∧ (after 3 ["p".toList, "--".toList, "-a".toList] "a".toList 1 fresh).optind = 2
    ∧ IsOptionCluster (argvAt ["p".toList, ['-', BYTE_FF, 'a']] 1)
    ∧ ':' ∉ cstr [BYTE_FF, 'a']
    ∧ (expectedFrom ["p".toList, ['-', BYTE_FF, 'a']] [BYTE_FF, 'a'] 1 1).length = 2
    ∧ returns 2 ["p".toList, ['-', BYTE_FF, 'a']] [BYTE_FF, 'a'] 1 fresh = [-1] := by
  decide

/-- C18, amended: let the option string contain no `:` and not the byte
`0xFF`, and let `m >= 1` be
the least index such that `m = argc` or `argv[m]` is not an option cluster, an
option cluster being an element that begins with `-`, has length at least two
and is not `"--"`; assume `argv[m]`, if present, is not `"--"`.  Then from the
fresh state the values returned up to and including the first `-1` are: for
each element `argv[1]`, ..., `argv[m - 1]` in order and each character `c`
after its leading `-` in order, `c` if it occurs in the option string and
`'?'` otherwise; then `-1`, at which point `optind = m` and `optarg` points at
`argv[m]` if `m < argc` and is `NULL` otherwise. -/
theorem flag_only_reference (argc : Nat) (argv : List (List Char)) (optstring : List Char)
    (m : Nat) (hcolon : ':' ∉ cstr optstring) (hff : BYTE_FF ∉ cstr optstring)
    (hm1 : 1 ≤ m) (hm2 : m ≤ argc)
    (hbefore : ∀ j, 1 ≤ j → j < m → IsOptionCluster (argvAt argv j))
    (hat : m < argc → ¬ IsOptionCluster (argvAt argv m))
    (hsent : m < argc → cstr (argvAt argv m) ≠ ['-', '-']) :
    returns argc argv optstring ((expectedFrom argv optstring 1 (m - 1)).length + 1) fresh
      = expectedFrom argv optstring 1 (m - 1) ++ [EOO]
    ∧ (∀ v, v ∈ expectedFrom argv optstring 1 (m - 1) → v ≠ EOO)
    ∧ (after argc argv optstring ((expectedFrom argv optstring 1 (m - 1)).length + 1)
        fresh).optind = m
    ∧ (after argc argv optstring ((expectedFrom argv optstring 1 (m - 1)).length + 1)
        fresh).optarg
        = (if m < argc then some { base := argvAt argv m, off := 0 } else none) := by
  obtain ⟨k1, k2, k3⟩ := @drain_elements argc argv optstring hcolon (m - 1) 1 fresh
    rfl rfl (fun j hj1 hj2 =>
      ⟨by omega, (isCluster_iff_optionCluster _).mpr (hbefore j hj1 (by omega))⟩)
  have hidx : index0 (after argc argv optstring (expectedFrom argv optstring 1 (m - 1)).length
      fresh) = m := by rw [k3]; omega
  have hcond : index0 (after argc argv optstring
        (expectedFrom argv optstring 1 (m - 1)).length fresh) ≥ argc
      ∨ (argvAt argv (index0 (after argc argv optstring
          (expectedFrom argv optstring 1 (m - 1)).length fresh))).getD 0 NUL ≠ '-'
      ∨ (argvAt argv (index0 (after argc argv optstring
          (expectedFrom argv optstring 1 (m - 1)).length fresh))).getD 1 NUL = NUL := by
    rw [hidx]
    by_cases hlt : m < argc
    · have hnc : ¬ isCluster (argvAt argv m) = true := fun hc =>
        hat hlt ((isCluster_iff_optionCluster _).mp hc)
      have hns := hsent hlt
      simp only [isCluster, Bool.and_eq_true, beq_iff_eq, bne_iff_ne, ne_eq] at hnc
      by_cases h0 : (argvAt argv m).getD 0 NUL = '-'
      · by_cases h1 : (argvAt argv m).getD 1 NUL = NUL
        · exact Or.inr (Or.inr h1)
        · exact absurd ⟨⟨h0, h1⟩, hns⟩ hnc
      · exact Or.inr (Or.inl h0)
    · exact Or.inl (Nat.le_of_not_lt hlt)
  have hg : getopt argc argv optstring
      (after argc argv optstring (expectedFrom argv optstring 1 (m - 1)).length fresh)
      = (EOO, { optind := m, optarg := operand argc argv m,
                next := resetNext (after argc argv optstring
                  (expectedFrom argv optstring 1 (m - 1)).length fresh) }) := by
    unfold getopt
    rw [enter_idle k2, newElement_eq, if_pos hcond, hidx]
  refine ⟨?_, ?_, ?_, ?_⟩
  · rw [returns_add, k1]
    simp only [returns]
    rw [hg]
  · intro v hv
    clear k1 k2 k3 hidx hcond hg
    generalize (m - 1) = d at hv
    generalize (1 : Nat) = i at hv
    induction d generalizing i with
    | zero => cases hv
    | succ d ih =>
      simp only [expectedFrom, List.mem_append, List.mem_map] at hv
      rcases hv with ⟨c, _, hc⟩ | hv
      · rw [← hc]
        unfold flagValue
        split_ifs with hmem
        · intro e
          exact hff (charInt_eq_eoo e ▸ hmem)
        · decide
      · exact ih (i + 1) hv
  · rw [after_succ_last, hg]
  · rw [after_succ_last, hg]
    rfl

/-- Witness for C18: the parse of `["p", "-az", "-B", "x", "-a"]` with
`"aB"`. -/
theorem flag_only_reference_witness :
    ':' ∉ cstr "aB".toList
    ∧ BYTE_FF ∉ cstr "aB".toList
    ∧ IsOptionCluster (argvAt ["p".toList, "-az".toList, "-B".toList, "x".toList,
        "-a".toList] 1)
    ∧ IsOptionCluster (argvAt ["p".toList, "-az".toList, "-B".toList, "x".toList,
        "-a".toList] 2)
    ∧ ¬ IsOptionCluster (argvAt ["p".toList, "-az".toList, "-B".toList, "x".toList,
        "-a".toList] 3)
    ∧ returns 5 ["p".toList, "-az".toList, "-B".toList, "x".toList, "-a".toList]
        "aB".toList 4 fresh = [97, 63, 66, -1]
    ∧ (after 5 ["p".toList, "-az".toList, "-B".toList, "x".toList, "-a".toList]
        "aB".toList 4 fresh).optind = 3 :=
  have h := flag_only_reference 5
    ["p".toList, "-az".toList, "-B".toList, "x".toList, "-a".toList] "aB".toList 3
    (by decide) (by decide) (by decide) (by decide)
    (fun j h1 h2 => by
      have hj : j = 1 ∨ j = 2 := by omega
      rcases hj with hj | hj <;> subst hj <;> decide)
    (fun _ => by decide) (fun _ => by decide)
  ⟨by decide, by decide, by decide, by decide, by decide, h.1, h.2.2.1⟩

end XGetOpt
